import Mathlib

/-!
Shallow embedding of `productcode.py` (bookland): product-code parsing,
checksum resolution, normalization and barcode bit-pattern assembly.

Strings are modelled as `List Char`; Python exceptions are modelled by
`Except PErr`; Python `%` on `int` agrees with `Int.emod` for positive
moduli, so machine arithmetic is exact here.
-/

/-- A value in one of the character maps produced by `makeCharMap`:
a digit value (an `int` in the Python source, including the value 10 used
for the ISBN-10 check character X), the wildcard marker (Python `None`),
or a literal separator (a `str` value in the source, dropped by `parse`). -/
inductive CVal
  | digit (n : Int)
  | wild
  | sep
deriving DecidableEq, Repr

/-- The exceptions the source can raise: `ProductCodeError` (with an optional
message, `ProductCodeError()` carries none), `KeyError` raised by `parse`
(caught in `ProductCode.__init__`), and a plain `IndexError` from indexing
into an empty string. -/
inductive PErr
  | pce (msg : Option String)
  | keyErr (c : Char)
  | indexError
deriving DecidableEq, Repr

/-- A character map `Char → Option CVal`; `none` models a key that is absent
from the Python dict (looking it up raises `KeyError`). -/
abbrev CharMap := Char → Option CVal

/-- The base of every `makeCharMap` result: characters 0-9 map to 0-9. -/
def baseMap : CharMap := fun c =>
  if c.isDigit then some (.digit ((c.toNat : Int) - 48)) else none

/-- `UPC.firstCharMap = makeCharMap({"*":None})` -/
def upcFirstMap : CharMap := fun c =>
  if c = '*' then some .wild else baseMap c

/-- `UPC.lastCharMap = makeCharMap({"*":None})` -/
def upcLastMap : CharMap := upcFirstMap

/-- `UPC.otherCharMap = makeCharMap({"*":None,"-":"-"})` -/
def upcOtherMap : CharMap := fun c =>
  if c = '*' then some .wild else if c = '-' then some .sep else baseMap c

/-- `ISBN10.lastCharMap = makeCharMap({"*":None,"X":10,"x":10})` -/
def isbn10LastMap : CharMap := fun c =>
  if c = '*' then some .wild
  else if c = 'X' then some (.digit 10)
  else if c = 'x' then some (.digit 10)
  else baseMap c

/-- `ISMN.firstCharMap = {"M":3}` (a plain dict: no digits!) -/
def ismnFirstMap : CharMap := fun c =>
  if c = 'M' then some (.digit 3) else none

/-- `ISMN.otherCharMap = makeCharMap({"*":None,"-":"-"," ":" "})` -/
def ismnOtherMap : CharMap := fun c =>
  if c = '*' then some .wild
  else if c = '-' then some .sep
  else if c = ' ' then some .sep
  else baseMap c

/-- Looking a character up in a map; a missing key is Python `KeyError`. -/
def look (m : CharMap) (c : Char) : Except PErr CVal :=
  match m c with
  | some v => .ok v
  | none => .error (.keyErr c)

/-- Sequential lookup of a character list (left to right, failing on the
first missing key), as the loop over `s[1:-1]` in `parse` does. -/
def lookAll (m : CharMap) : List Char → Except PErr (List CVal)
  | [] => .ok []
  | c :: cs =>
    match look m c with
    | .error e => .error e
    | .ok v =>
      match lookAll m cs with
      | .error e => .error e
      | .ok vs => .ok (v :: vs)

/-- `if type(d)==int or d==None: digits.append(d)`: a digit becomes a
resolved slot, the wildcard an unresolved slot, a separator is dropped. -/
def cvalSlot : CVal → Option (Option Int)
  | .digit n => some (some n)
  | .wild => some none
  | .sep => none

/-- `parse(s, firstCharMap, lastCharMap, otherCharMap)` from the source:
`s[0]` through the first map, `s[1:-1]` through the interior map, `s[-1]`
through the last map (for a one-character string the same character goes
through both the first and the last map).  An empty string raises
`IndexError` at `s[0]`. -/
def parse (fm lm om : CharMap) (s : List Char) : Except PErr (List (Option Int)) :=
  match s with
  | [] => .error .indexError
  | c0 :: rest =>
    match look fm c0 with
    | .error e => .error e
    | .ok v0 =>
      match lookAll om rest.dropLast with
      | .error e => .error e
      | .ok vs =>
        match look lm (rest.getLastD c0) with
        | .error e => .error e
        | .ok vl => .ok ((v0 :: (vs ++ [vl])).filterMap cvalSlot)

/-- Per-format configuration: the three character maps, weight vector,
modulus (`self.magic`), the `self.type` string used in error messages, and
whether `int2char` maps 10 to X (the ISBN-10 override). -/
structure PCConfig where
  ty : String
  fm : CharMap
  lm : CharMap
  om : CharMap
  weights : List Int
  magic : Int
  xFor10 : Bool

/-- The weighted sum `Σ digits[p]*weights[p]` from `ProductCode.remainder`. -/
def wsum (ds ws : List Int) : Int := (List.zipWith (fun a b => a * b) ds ws).sum

/-- Substituting a value for every unresolved slot.  The source mutates
`self.digits[iWild]`; since at most one slot is unresolved wherever this is
used, mapping over the list is the same assignment. -/
def setWild (ds : List (Option Int)) (v : Int) : List Int :=
  ds.map (fun o => o.getD v)

/-- `self.digits.count(None)` -/
def nWild (ds : List (Option Int)) : Nat := ds.countP (fun o => o.isNone)

/-- `ProductCode.remainder`: checks the digit count, then returns the
weighted sum modulo `self.magic` (Python `%`, i.e. `Int.emod`). -/
def remainder (cfg : PCConfig) (ds : List Int) : Except PErr Int :=
  if ds.length = cfg.weights.length then .ok (wsum ds cfg.weights % cfg.magic)
  else .error (.pce (some (cfg.ty ++ ": wrong number of digits")))

/-- `ProductCode.resolveChecksum`.  Returns the resolved wildcard value (or
`none`), together with the final (mutated) digit list.  Faithful to the
source, when exactly one slot is unresolved and no candidate in 0..9
satisfies the equation the loop falls off the end: the function returns
`none` with the last tried value 9 left in the digit list. -/
def resolveChecksum (cfg : PCConfig) (ds : List (Option Int)) :
    Except PErr (Option Int × List Int) :=
  if nWild ds = 0 then
    match remainder cfg (setWild ds 0) with
    | .error e => .error e
    | .ok r =>
      if r = 0 then .ok (none, setWild ds 0)
      else .error (.pce (some (cfg.ty ++ ": checksum error")))
  else if nWild ds = 1 then
    if ds.length = cfg.weights.length then
      match (List.range 10).find?
          (fun i => wsum (setWild ds (Int.ofNat i)) cfg.weights % cfg.magic == 0) with
      | some i => .ok (some (Int.ofNat i), setWild ds (Int.ofNat i))
      | none => .ok (none, setWild ds 9)
    else .error (.pce (some (cfg.ty ++ ": wrong number of digits")))
  else .error (.pce (some (cfg.ty ++ ": too many wildcard digits.")))

/-- A single-quote character, for rendering Python `KeyError` text. -/
def sglQuote : String := String.mk [Char.ofNat 39]

/-- `str(KeyError(c))` is the repr of the key: the character in quotes. -/
def quoteChar (c : Char) : String := sglQuote ++ String.mk [c] ++ sglQuote

/-- `ProductCode.int2char` (with the ISBN-10 override when `xFor10`):
`"%s" % n` for a single-character decimal, X for 10 under the override,
otherwise the multi-character rendering raises the internal error. -/
def int2char (cfg : PCConfig) (n : Int) : Except PErr Char :=
  if cfg.xFor10 ∧ n = 10 then .ok 'X'
  else if 0 ≤ n ∧ n ≤ 9 then .ok (Char.ofNat (48 + n.toNat))
  else .error (.pce (some (cfg.ty ++ ": Internal error")))

/-- `s.upper()` (ASCII, which is all `parse` admits). -/
def upperStr (s : List Char) : List Char := s.map Char.toUpper

/-- `re.sub("\*", c, s)`: every asterisk replaced by `c`. -/
def substStar (s : List Char) (c : Char) : List Char :=
  s.map (fun x => if x = '*' then c else x)

/-- `re.search("--|  ", s)`: some adjacent pair is two dashes or two spaces. -/
def containsDoubleSep : List Char → Bool
  | a :: b :: rest =>
    ((a = '-' && b = '-') || (a = ' ' && b = ' ')) || containsDoubleSep (b :: rest)
  | _ => false

/-- `"\n".join(msgs)` -/
def joinMsgs : List String → String
  | [] => ""
  | [m] => m
  | m :: rest => m ++ "\n" ++ joinMsgs rest

/-- The messages `ProductCode.realityCheck` collects: digit-count versus
weight-count, first/last/interior character class membership, doubled
separators. -/
def rcMsgs (cfg : PCConfig) (c0 : Char) (rest : List Char) (digits : List Int) :
    List String :=
  (if cfg.weights.length < digits.length then [cfg.ty ++ ": Too many digits"]
   else if digits.length < cfg.weights.length then [cfg.ty ++ ": Not enough digits"]
   else [])
  ++ (if (cfg.fm c0).isNone then [cfg.ty ++ ": Illegal first character"] else [])
  ++ (if (cfg.lm (rest.getLastD c0)).isNone then [cfg.ty ++ ": Illegal final character"] else [])
  ++ rest.dropLast.filterMap
       (fun c => if (cfg.om c).isNone then some (cfg.ty ++ ": Illegal character") else none)
  ++ (if containsDoubleSep (c0 :: rest) then [cfg.ty ++ ": Repeated seperator"] else [])

/-- `ProductCode.realityCheck`, run on the normalized string after wildcard
substitution; all failures are collected into one `ProductCodeError`. -/
def realityCheck (cfg : PCConfig) (s : List Char) (digits : List Int) :
    Except PErr Unit :=
  match s with
  | [] => .error .indexError
  | c0 :: rest =>
    if rcMsgs cfg c0 rest digits = [] then .ok ()
    else .error (.pce (some (joinMsgs (rcMsgs cfg c0 rest digits))))

/-- The state `ProductCode.__init__` builds: the given string, the
normalized string `self.s` (uppercased, wildcard substituted), the resolved
digit list and `self.checkDigit = self.digits[-1]`. -/
structure PC where
  givenString : List Char
  s : List Char
  digits : List Int
  checkDigit : Int
deriving DecidableEq, Repr

/-- The normalized string after `ProductCode.__init__`'s wildcard
substitution step: `self.s` (the uppercased input) with a resolved wildcard
value substituted via `int2char`, or unchanged when `resolveChecksum`
returned `None`. -/
def normString (cfg : PCConfig) (s : List Char) (iOpt : Option Int) :
    Except PErr (List Char) :=
  match iOpt with
  | some i =>
    match int2char cfg i with
    | .error e => .error e
    | .ok c => .ok (substStar (upperStr s) c)
  | none => .ok (upperStr s)

/-- `ProductCode.__init__`: parse the original string (KeyError becomes a
`ProductCodeError`), resolve the checksum, substitute a resolved wildcard
into the uppercased string, run `realityCheck`, record the check digit. -/
def pcInit (cfg : PCConfig) (s : List Char) : Except PErr PC :=
  match parse cfg.fm cfg.lm cfg.om s with
  | .error (.keyErr c) => .error (.pce (some (cfg.ty ++ ": " ++ quoteChar c ++ " invalid here")))
  | .error e => .error e
  | .ok ds =>
    match resolveChecksum cfg ds with
    | .error e => .error e
    | .ok (iOpt, dd) =>
      match normString cfg s iOpt with
      | .error e => .error e
      | .ok sFinal =>
        match realityCheck cfg sFinal dd with
        | .error e => .error e
        | .ok _ =>
          match dd.getLast? with
          | none => .error .indexError
          | some cd => .ok ⟨s, sFinal, dd, cd⟩

/-! ## Bit tables and parity tables -/

/-- `EAN13BITS[d][p]` (a missing row or column would be a Python error;
those cases are unreachable and return `[]` here). -/
def ean13bitchar (d : Int) (p : Char) : List Char :=
  if d = 0 then (if p = 'A' then "0001101".toList else if p = 'B' then "0100111".toList else if p = 'C' then "1110010".toList else [])
  else if d = 1 then (if p = 'A' then "0011001".toList else if p = 'B' then "0110011".toList else if p = 'C' then "1100110".toList else [])
  else if d = 2 then (if p = 'A' then "0010011".toList else if p = 'B' then "0011011".toList else if p = 'C' then "1101100".toList else [])
  else if d = 3 then (if p = 'A' then "0111101".toList else if p = 'B' then "0100001".toList else if p = 'C' then "1000010".toList else [])
  else if d = 4 then (if p = 'A' then "0100011".toList else if p = 'B' then "0011101".toList else if p = 'C' then "1011100".toList else [])
  else if d = 5 then (if p = 'A' then "0110001".toList else if p = 'B' then "0111001".toList else if p = 'C' then "1001110".toList else [])
  else if d = 6 then (if p = 'A' then "0101111".toList else if p = 'B' then "0000101".toList else if p = 'C' then "1010000".toList else [])
  else if d = 7 then (if p = 'A' then "0111011".toList else if p = 'B' then "0010001".toList else if p = 'C' then "1000100".toList else [])
  else if d = 8 then (if p = 'A' then "0110111".toList else if p = 'B' then "0001001".toList else if p = 'C' then "1001000".toList else [])
  else if d = 9 then (if p = 'A' then "0001011".toList else if p = 'B' then "0010111".toList else if p = 'C' then "1110100".toList else [])
  else []

/-- `UPC5BITS[d][p]` (`UPC5BITS = UPCEBITS` in the source). -/
def upc5bitchar (d : Int) (p : Char) : List Char :=
  if d = 0 then (if p = 'O' then "0001101".toList else if p = 'E' then "0100111".toList else [])
  else if d = 1 then (if p = 'O' then "0011001".toList else if p = 'E' then "0110011".toList else [])
  else if d = 2 then (if p = 'O' then "0010011".toList else if p = 'E' then "0011011".toList else [])
  else if d = 3 then (if p = 'O' then "0111101".toList else if p = 'E' then "0100001".toList else [])
  else if d = 4 then (if p = 'O' then "0100011".toList else if p = 'E' then "0011101".toList else [])
  else if d = 5 then (if p = 'O' then "0110001".toList else if p = 'E' then "0111001".toList else [])
  else if d = 6 then (if p = 'O' then "0101111".toList else if p = 'E' then "0000101".toList else [])
  else if d = 7 then (if p = 'O' then "0111011".toList else if p = 'E' then "0010001".toList else [])
  else if d = 8 then (if p = 'O' then "0110111".toList else if p = 'E' then "0001001".toList else [])
  else if d = 9 then (if p = 'O' then "0001011".toList else if p = 'E' then "0010111".toList else [])
  else []

/-- `EAN13PARITY[d]`: the six-symbol A/B pattern for leading digit `d`
followed by `"CCCCCC"` (the `map` in the source is expanded here). -/
def ean13parity (d : Int) : List Char :=
  if d = 0 then "AAAAAACCCCCC".toList
  else if d = 1 then "AABABBCCCCCC".toList
  else if d = 2 then "AABBABCCCCCC".toList
  else if d = 3 then "AABBBACCCCCC".toList
  else if d = 4 then "ABAABBCCCCCC".toList
  else if d = 5 then "ABBAABCCCCCC".toList
  else if d = 6 then "ABBBAACCCCCC".toList
  else if d = 7 then "ABABABCCCCCC".toList
  else if d = 8 then "ABABBACCCCCC".toList
  else if d = 9 then "ABBABACCCCCC".toList
  else []

/-- `UPC5PARITY[d]` -/
def upc5parity (d : Int) : List Char :=
  if d = 0 then "EEOOO".toList
  else if d = 1 then "EOEOO".toList
  else if d = 2 then "EOOEO".toList
  else if d = 3 then "EOOOE".toList
  else if d = 4 then "OEEOO".toList
  else if d = 5 then "OOEEO".toList
  else if d = 6 then "OOOEE".toList
  else if d = 7 then "OEOEO".toList
  else if d = 8 then "OEOOE".toList
  else if d = 9 then "OOEOE".toList
  else []

/-- `UPC.setbits(digits)`: each digit is encoded through the bit table
under the parity symbol at its position and the codes are concatenated. -/
def setbits (bc : Int → Char → List Char) (parity : List Char) (ds : List Int) : List Char :=
  (List.zipWith (fun d p => bc d p) ds parity).flatten

/-! ## Format constructors -/

/-- `EAN13.weights = [1] + 6*[3,1]` -/
def ean13Weights : List Int := [1, 3, 1, 3, 1, 3, 1, 3, 1, 3, 1, 3, 1]

/-- The configuration `EAN13.__init__` installs (UPC character maps,
modulus 10); `ty` is `self.type`, which a subclass may have set first. -/
def ean13Cfg (ty : String) : PCConfig :=
  { ty := ty, fm := upcFirstMap, lm := upcLastMap, om := upcOtherMap,
    weights := ean13Weights, magic := 10, xFor10 := false }

/-- `str(n)` for a digit value (all uses are on digits 0..9). -/
def intDigitChar (n : Int) : Char := Char.ofNat (48 + n.toNat)

/-- The state `EAN13.__init__` builds on top of `ProductCode.__init__`. -/
structure EANCode where
  pc : PC
  parityPattern : List Char
  bits : List Char
  leftDigits : List Char
  rightDigits : List Char
deriving DecidableEq, Repr

/-- `EAN13.__init__` (parameterized by `self.type` so that `ISBN13` and
`ISMN13` reuse it): parity pattern from the leading digit, 84 data symbols
from `setbits` over `digits[1:]`, then guards and center inserted. -/
def ean13Init (ty : String) (s : List Char) : Except PErr EANCode :=
  match pcInit (ean13Cfg ty) s with
  | .error e => .error e
  | .ok pc =>
    match pc.digits.head? with
    | none => .error .indexError
    | some d0 =>
      let parity := ean13parity d0
      let body := setbits ean13bitchar parity (pc.digits.drop 1)
      .ok { pc := pc
            parityPattern := parity
            bits := "L0L".toList ++ body.take 42 ++ "0L0L0".toList
                    ++ body.drop 42 ++ "L0L".toList
            leftDigits := ((pc.digits.drop 1).take 6).map intDigitChar
            rightDigits := ((pc.digits.drop 7).take 6).map intDigitChar }

/-- `EAN13(s)` -/
def mkEAN13 (s : List Char) : Except PErr EANCode := ean13Init "EAN13" s

/-- `ISBN13(s)`: `EAN13.__init__` with `self.type = "ISBN13"`, then the
raw-prefix check `s[0] in "9*"`, `s[1] in "7*"`, `s[2] in "89*"`. -/
def mkISBN13 (s : List Char) : Except PErr EANCode :=
  match ean13Init "ISBN13" s with
  | .error e => .error e
  | .ok r =>
    match s.get? 0, s.get? 1, s.get? 2 with
    | some a, some b, some c =>
      if (a = '9' ∨ a = '*') ∧ (b = '7' ∨ b = '*') ∧ (c = '8' ∨ c = '9' ∨ c = '*')
      then .ok r
      else .error (.pce (some "ISBN13: must begin with 978 or 979"))
    | _, _, _ => .error .indexError

/-- `ISMN13(s)`: like `ISBN13` but prefix `s[0] in "9*"`, `s[1] in "7*"`,
`s[2] in "9*"` (nothing is checked beyond the first three characters). -/
def mkISMN13 (s : List Char) : Except PErr EANCode :=
  match ean13Init "ISMN13" s with
  | .error e => .error e
  | .ok r =>
    match s.get? 0, s.get? 1, s.get? 2 with
    | some a, some b, some c =>
      if (a = '9' ∨ a = '*') ∧ (b = '7' ∨ b = '*') ∧ (c = '9' ∨ c = '*')
      then .ok r
      else .error (.pce (some "ISMN13: must begin with 979"))
    | _, _, _ => .error .indexError

/-- `ISBN10`'s configuration: weights `range(10,0,-1)`, modulus 11,
last-character map admitting X/x as 10, `int2char` mapping 10 to X. -/
def isbn10Cfg : PCConfig :=
  { ty := "ISBN10", fm := upcFirstMap, lm := isbn10LastMap, om := upcOtherMap,
    weights := [10, 9, 8, 7, 6, 5, 4, 3, 2, 1], magic := 11, xFor10 := true }

/-- The string `ISBN10.as13` builds: `"978-%s*" % self.s[:-1]`. -/
def isbn10as13str (sNorm : List Char) : List Char :=
  "978-".toList ++ sNorm.dropLast ++ ['*']

/-- The state `ISBN10.__init__` builds (`self.bits = self.as13().bits`). -/
structure ISBN10Code where
  pc : PC
  bits : List Char
deriving DecidableEq, Repr

/-- `ISBN10(s)` -/
def mkISBN10 (s : List Char) : Except PErr ISBN10Code :=
  match pcInit isbn10Cfg s with
  | .error e => .error e
  | .ok pc =>
    match mkISBN13 (isbn10as13str pc.s) with
    | .error e => .error e
    | .ok e13 => .ok { pc := pc, bits := e13.bits }

/-- `ISBN10.as13()` on a constructed instance. -/
def isbn10as13 (r : ISBN10Code) : Except PErr EANCode :=
  mkISBN13 (isbn10as13str r.pc.s)

/-- `ISMN`'s configuration: first map `{"M":3}` only, weights `5*[3,1]`,
modulus 10, space as an extra separator. -/
def ismnCfg : PCConfig :=
  { ty := "ISMN", fm := ismnFirstMap, lm := upcLastMap, om := ismnOtherMap,
    weights := [3, 1, 3, 1, 3, 1, 3, 1, 3, 1], magic := 10, xFor10 := false }

/-- The string `ISMN.as13` builds: `"979-0%s*" % self.s[1:-1]`. -/
def ismnAs13str (sNorm : List Char) : List Char :=
  "979-0".toList ++ (sNorm.drop 1).dropLast ++ ['*']

/-- The state `ISMN.__init__` builds (`self.bits = self.as13().bits`). -/
structure ISMNCode where
  pc : PC
  bits : List Char
deriving DecidableEq, Repr

/-- `ISMN(s)` -/
def mkISMN (s : List Char) : Except PErr ISMNCode :=
  match pcInit ismnCfg s with
  | .error e => .error e
  | .ok pc =>
    match mkISMN13 (ismnAs13str pc.s) with
    | .error e => .error e
    | .ok e13 => .ok { pc := pc, bits := e13.bits }

/-- `ISMN.as13()` on a constructed instance. -/
def ismnAs13 (r : ISMNCode) : Except PErr EANCode :=
  mkISMN13 (ismnAs13str r.pc.s)

/-- `UPC5`'s configuration: weights `[3,9,3,9,3,-1]`, modulus 10, only the
last character map admits the wildcard. -/
def upc5Cfg : PCConfig :=
  { ty := "UPC5", fm := baseMap, lm := upcLastMap, om := baseMap,
    weights := [3, 9, 3, 9, 3, -1], magic := 10, xFor10 := false }

/-- The state `UPC5.__init__` builds: `self.s` truncated to the five
printed digits, the six internal digits, the internally computed check
digit, its parity pattern, and the bits with guard and delineators. -/
structure UPC5Code where
  s : List Char
  digits : List Int
  checkDigit : Int
  parityPattern : List Char
  bits : List Char
deriving DecidableEq, Repr

/-- `UPC5(s)`: a wildcard check slot is appended (`s = s+"*"`), the base
constructor runs on the six-slot string, then the check digit is cut off
the printed string, parity is selected by the check digit, and the five
7-symbol codes are assembled with `"1011"` and `"01"` delineators (no
trailing guard). -/
def mkUPC5 (s0 : List Char) : Except PErr UPC5Code :=
  match pcInit upc5Cfg (s0 ++ ['*']) with
  | .error e => .error e
  | .ok pc =>
    let parity := upc5parity pc.checkDigit
    let body := setbits upc5bitchar parity (pc.digits.take 5)
    .ok { s := pc.s.take 5
          digits := pc.digits
          checkDigit := pc.checkDigit
          parityPattern := parity
          bits := "1011".toList ++ body.take 7 ++ "01".toList
                  ++ ((body.drop 7).take 7) ++ "01".toList
                  ++ ((body.drop 14).take 7) ++ "01".toList
                  ++ ((body.drop 21).take 7) ++ "01".toList
                  ++ ((body.drop 28).take 7) }

/-! ## Dispatcher -/

/-- The result of `makeProductCode`: which constructor produced the code. -/
inductive PCode
  | ean13C (r : EANCode)
  | isbn13C (r : EANCode)
  | ismn13C (r : EANCode)
  | isbn10C (r : ISBN10Code)
  | ismnC (r : ISMNCode)
  | upc5C (r : UPC5Code)
deriving DecidableEq, Repr

/-- The trailing `EAN13` attempt of `makeProductCode`; if it too fails with
a `ProductCodeError`, the bare `raise ProductCodeError()` carries no
message of its own. -/
def mpcTryEAN13 (s : List Char) : Except PErr PCode :=
  match mkEAN13 s with
  | .ok r => .ok (.ean13C r)
  | .error (.pce _) => .error (.pce none)
  | .error e => .error e

/-- The `ISMN` attempt of `makeProductCode` (by the time it runs,
`forceISMN13` is necessarily false, but the source still branches on it;
an `as13` failure inside the try-block is also swallowed). -/
def mpcTryISMN (s : List Char) (forceISMN13 : Bool) : Except PErr PCode :=
  match mkISMN s with
  | .ok r =>
    if forceISMN13 then
      match ismnAs13 r with
      | .ok r13 => .ok (.ismn13C r13)
      | .error (.pce _) => mpcTryEAN13 s
      | .error e => .error e
    else .ok (.ismnC r)
  | .error (.pce _) => mpcTryEAN13 s
  | .error e => .error e

/-- The `ISBN10` attempt of `makeProductCode`: on success, with
`forceISBN13` the result is `rval.as13()` (an `as13` failure falls through
to the ISMN attempt), otherwise the `ISBN10` instance itself. -/
def mpcTryISBN10 (s : List Char) (forceISBN13 forceISMN13 : Bool) : Except PErr PCode :=
  match mkISBN10 s with
  | .ok r =>
    if forceISBN13 then
      match isbn10as13 r with
      | .ok r13 => .ok (.isbn13C r13)
      | .error (.pce _) => mpcTryISMN s forceISMN13
      | .error e => .error e
    else .ok (.isbn10C r)
  | .error (.pce _) => mpcTryISMN s forceISMN13
  | .error e => .error e

/-- `makeProductCode(s, forceISBN13, forceISMN13)`: refuse `forceISMN13`
outright, then try ISBN13, ISBN10 (optionally as ISBN13), ISMN and EAN13 in
order, swallowing only `ProductCodeError`s. -/
def makeProductCode (s : List Char) (forceISBN13 forceISMN13 : Bool) : Except PErr PCode :=
  if forceISMN13 then .error (.pce (some "there is no ISMN13 yet."))
  else
    match mkISBN13 s with
    | .ok r => .ok (.isbn13C r)
    | .error (.pce _) => mpcTryISBN10 s forceISBN13 forceISMN13
    | .error e => .error e

/-! ## Formats as a family, for claims quantified over every format -/

/-- The six directly constructible formats (`UPCA` sets no weights in the
source and cannot complete construction; it is not modelled). -/
inductive Format
  | ean13 | isbn13 | ismn13 | isbn10 | ismn | upc5
deriving DecidableEq, Repr

/-- The configuration each format's constructor installs. -/
def fmtCfg : Format → PCConfig
  | .ean13 => ean13Cfg "EAN13"
  | .isbn13 => ean13Cfg "ISBN13"
  | .ismn13 => ean13Cfg "ISMN13"
  | .isbn10 => isbn10Cfg
  | .ismn => ismnCfg
  | .upc5 => upc5Cfg

/-- The string actually fed to `ProductCode.__init__` (UPC5 appends the
wildcard check slot first). -/
def fmtInput : Format → List Char → List Char
  | .upc5, s => s ++ ['*']
  | _, s => s

/-- The digit slots a format's constructor parses out of an input. -/
def fmtParse (f : Format) (s : List Char) : Except PErr (List (Option Int)) :=
  parse (fmtCfg f).fm (fmtCfg f).lm (fmtCfg f).om (fmtInput f s)

/-- Running one format's full constructor. -/
def mkFormat (f : Format) (s : List Char) : Except PErr PCode :=
  match f with
  | .ean13 => (mkEAN13 s).map .ean13C
  | .isbn13 => (mkISBN13 s).map .isbn13C
  | .ismn13 => (mkISMN13 s).map .ismn13C
  | .isbn10 => (mkISBN10 s).map .isbn10C
  | .ismn => (mkISMN s).map .ismnC
  | .upc5 => (mkUPC5 s).map .upc5C

/-! ## The shared error-message list of `ProductCodeError` -/

/-- `ProductCodeError.msgs` is a class-level list: constructing an error
with a message appends to state shared by every instance. -/
def pceRaise (msgs : List String) (m : Option String) : List String :=
  match m with
  | some msg => msgs ++ [msg]
  | none => msgs

/-- `ProductCodeError.__str__`: `"\n".join(self.msgs)` over the shared
class-level list. -/
def pceStr (msgs : List String) : String := joinMsgs msgs

/-! ## Claim theorems: evaluation-level facts -/

/-- C9: `ProductCodeError` keeps its messages in a single class-level list,
so when two constructions each raise an error in one process (the class
state starting empty), the second error's string representation contains
the first error's message as well as its own — the rendered error text is
`m1 ++ "\n" ++ m2`, a function of the earlier failure's message, not of the
second construction's input alone. -/
theorem c9_shared_error_messages (m1 m2 : String) :
    m1 ∈ pceRaise (pceRaise [] (some m1)) (some m2)
    ∧ m2 ∈ pceRaise (pceRaise [] (some m1)) (some m2)
    ∧ pceStr (pceRaise (pceRaise [] (some m1)) (some m2)) = m1 ++ "\n" ++ m2 := by
  refine ⟨?_, ?_, rfl⟩ <;> simp [pceRaise]

/-- C10 (counterexample): not every per-format constructor raises a plain
`IndexError` on the empty input.  `UPC5("")` appends the wildcard before
parsing, so it parses the non-empty string `"*"` and fails with a
`ProductCodeError` (the wildcard is not a legal first character), which is
not an `IndexError`. -/
theorem c10_upc5_empty_cex :
    mkUPC5 [] = .error (.pce (some ("UPC5: " ++ quoteChar '*' ++ " invalid here")))
    ∧ PErr.pce (some ("UPC5: " ++ quoteChar '*' ++ " invalid here")) ≠ PErr.indexError := by
  exact ⟨rfl, by decide⟩

/-- C10 (amended): on the empty input string, the EAN13, ISBN13, ISMN13,
ISBN10 and ISMN constructors and the dispatcher `makeProductCode` (default
flags) all raise a plain `IndexError` — `parse` indexes `s[0]`, the
constructors catch only `KeyError` and the dispatcher only
`ProductCodeError`, so it propagates — while `UPC5`, which appends a
wildcard before parsing, instead fails with a `ProductCodeError`. -/
theorem c10_empty_string_index_error :
    mkEAN13 [] = .error .indexError
    ∧ mkISBN13 [] = .error .indexError
    ∧ mkISMN13 [] = .error .indexError
    ∧ mkISBN10 [] = .error .indexError
    ∧ mkISMN [] = .error .indexError
    ∧ makeProductCode [] true false = .error .indexError
    ∧ mkUPC5 [] = .error (.pce (some ("UPC5: " ++ quoteChar '*' ++ " invalid here"))) :=
  ⟨rfl, rfl, rfl, rfl, rfl, rfl, rfl⟩

/-- C1 (the code at the failing input): `ISBN10("000000006*")` has exactly
one wildcard and its checksum equation is only solvable by 10 (the X
digit), which the 0..9 scan never tries; `resolveChecksum` falls off the
end of its loop, construction nevertheless SUCCEEDS, the wildcard is left
unsubstituted in the normalized string, the digit list keeps the last tried
candidate 9, and the resulting weighted sum is 10 mod 11, not 0 — an
unresolvable checksum is silently downgraded to a valid result. -/
theorem c1_unsolvable_wildcard_accepted :
    (mkISBN10 "000000006*".toList).map (fun r => (r.pc.digits, r.pc.s))
      = .ok ([0, 0, 0, 0, 0, 0, 0, 0, 6, 9], "000000006*".toList)
    ∧ wsum [0, 0, 0, 0, 0, 0, 0, 0, 6, 9] isbn10Cfg.weights % isbn10Cfg.magic = 10
    ∧ (List.range 10).find?
        (fun i => wsum (setWild [some 0, some 0, some 0, some 0, some 0, some 0,
                                 some 0, some 0, some 6, none] (Int.ofNat i))
                    isbn10Cfg.weights % isbn10Cfg.magic == 0) = none := by
  exact ⟨rfl, by decide, by decide⟩

/-- C3 (counterexample): the claim fails on the code in two ways.
With `ISBN10("000000006*")` (one wildcard, checksum solvable only by 10)
construction succeeds but no value in 0..9 satisfies the equation and
nothing is substituted: the wildcard survives in the normalized string.
With `ISBN13("*780000000000")` the wildcard resolves to 1 and is
substituted, but re-running the same constructor on the substituted string
fails the raw-prefix check, so re-running is not idempotent. -/
theorem c3_resolution_not_idempotent_cex :
    (mkISBN10 "000000006*".toList).map (fun r => r.pc.s) = .ok "000000006*".toList
    ∧ (List.range 10).find?
        (fun i => wsum (setWild [some 0, some 0, some 0, some 0, some 0, some 0,
                                 some 0, some 0, some 6, none] (Int.ofNat i))
                    isbn10Cfg.weights % isbn10Cfg.magic == 0) = none
    ∧ (mkISBN13 "*780000000000".toList).map (fun r => r.pc.s) = .ok "1780000000000".toList
    ∧ mkISBN13 "1780000000000".toList
        = .error (.pce (some "ISBN13: must begin with 978 or 979")) := by
  exact ⟨rfl, by decide, rfl, rfl⟩

/-- C4 (counterexample): on the empty input string the dispatcher does not
discard the first attempt's failure and raise the empty aggregate
`ProductCodeError` — the `IndexError` from `parse` propagates out of
`makeProductCode` uncaught. -/
theorem c4_empty_string_cex :
    makeProductCode [] true false = .error .indexError
    ∧ PErr.indexError ≠ PErr.pce none := by
  exact ⟨rfl, by decide⟩

/-- C5 (counterexample): for `ISBN10("0-9669553-0-7")`, the digits of the
derived ISBN-13 at positions 1-9 are `[7,8,0,9,6,6,9,5,5]`, which is NOT
the source ISBN-10's digits 0-8, `[0,9,6,6,9,5,5,3,0]`; the source digits
sit at positions 3-11 of the 13-digit sequence, after the `978` prefix. -/
theorem c5_position_offset_cex :
    ((mkISBN10 "0-9669553-0-7".toList).bind isbn10as13).map
        (fun e => (e.pc.digits.drop 1).take 9) = .ok [7, 8, 0, 9, 6, 6, 9, 5, 5]
    ∧ (mkISBN10 "0-9669553-0-7".toList).map (fun r => r.pc.digits.take 9)
        = .ok [0, 9, 6, 6, 9, 5, 5, 3, 0]
    ∧ ([7, 8, 0, 9, 6, 6, 9, 5, 5] : List Int) ≠ [0, 9, 6, 6, 9, 5, 5, 3, 0] := by
  exact ⟨rfl, rfl, by decide⟩

/-- C8 (counterexample): `ISMN13` checks only the first three raw
characters (9, 7, 9, each possibly a wildcard) and never the fourth:
`ISMN13("9791000000008")` constructs successfully although its fourth
character is `'1'`, neither `'0'` nor a wildcard. -/
theorem c8_ismn13_fourth_char_cex :
    (mkISMN13 "9791000000008".toList).map (fun r => r.pc.s)
      = .ok "9791000000008".toList
    ∧ "9791000000008".toList.get? 3 = some '1'
    ∧ ('1' : Char) ≠ '0' ∧ ('1' : Char) ≠ '*' := by
  exact ⟨rfl, rfl, by decide, by decide⟩

/-! ## Inversion lemmas for the construction pipeline -/

/-- With two or more unresolved slots, `resolveChecksum` raises the
too-many-wildcards error without looking at anything else. -/
theorem resolveChecksum_two_wild {cfg : PCConfig} {ds : List (Option Int)}
    (h : 2 ≤ nWild ds) :
    resolveChecksum cfg ds
      = .error (.pce (some (cfg.ty ++ ": too many wildcard digits."))) := by
  unfold resolveChecksum
  rw [if_neg (by omega), if_neg (by omega)]

/-- Inverting a successful `resolveChecksum`: either there was no wildcard
and the remainder is 0, or one wildcard that the 0..9 scan resolved, or one
wildcard the scan failed to resolve (the silent fall-through). -/
theorem resolveChecksum_ok_inv {cfg : PCConfig} {ds : List (Option Int)}
    {iOpt : Option Int} {dd : List Int}
    (h : resolveChecksum cfg ds = .ok (iOpt, dd)) :
    ds.length = cfg.weights.length
    ∧ ((nWild ds = 0 ∧ iOpt = none ∧ dd = setWild ds 0
        ∧ wsum dd cfg.weights % cfg.magic = 0)
      ∨ (nWild ds = 1
        ∧ ∃ i : Nat, (List.range 10).find?
              (fun i => wsum (setWild ds (Int.ofNat i)) cfg.weights % cfg.magic == 0)
              = some i
          ∧ iOpt = some (Int.ofNat i) ∧ dd = setWild ds (Int.ofNat i))
      ∨ (nWild ds = 1 ∧ iOpt = none ∧ dd = setWild ds 9
        ∧ (List.range 10).find?
            (fun i => wsum (setWild ds (Int.ofNat i)) cfg.weights % cfg.magic == 0)
            = none)) := by
  unfold resolveChecksum remainder at h
  by_cases h0 : nWild ds = 0
  · rw [if_pos h0] at h
    by_cases hlen : (setWild ds 0).length = cfg.weights.length
    · rw [if_pos hlen] at h
      dsimp only at h
      by_cases hrem : wsum (setWild ds 0) cfg.weights % cfg.magic = 0
      · rw [if_pos hrem] at h
        obtain ⟨rfl, rfl⟩ : iOpt = none ∧ dd = setWild ds 0 := by
          simpa using h.symm
        exact ⟨by simpa [setWild] using hlen, .inl ⟨h0, rfl, rfl, hrem⟩⟩
      · rw [if_neg hrem] at h
        exact absurd h (by simp)
    · rw [if_neg hlen] at h
      dsimp only at h
      exact absurd h (by simp)
  · rw [if_neg h0] at h
    by_cases h1 : nWild ds = 1
    · rw [if_pos h1] at h
      by_cases hlen : ds.length = cfg.weights.length
      · rw [if_pos hlen] at h
        cases hfind : (List.range 10).find?
            (fun i => wsum (setWild ds (Int.ofNat i)) cfg.weights % cfg.magic == 0) with
        | some i =>
          rw [hfind] at h
          dsimp only at h
          obtain ⟨rfl, rfl⟩ : iOpt = some (Int.ofNat i) ∧ dd = setWild ds (Int.ofNat i) := by
            simpa using h.symm
          exact ⟨hlen, .inr (.inl ⟨h1, i, rfl, rfl, rfl⟩)⟩
        | none =>
          rw [hfind] at h
          dsimp only at h
          obtain ⟨rfl, rfl⟩ : iOpt = none ∧ dd = setWild ds 9 := by
            simpa using h.symm
          exact ⟨hlen, .inr (.inr ⟨h1, rfl, rfl, rfl⟩)⟩
      · rw [if_neg hlen] at h
        exact absurd h (by simp)
    · rw [if_neg h1] at h
      exact absurd h (by simp)

/-- Inverting a successful `pcInit`: each pipeline stage succeeded and the
record fields are what the stages produced. -/
theorem pcInit_ok_inv {cfg : PCConfig} {s : List Char} {pc : PC}
    (h : pcInit cfg s = .ok pc) :
    ∃ ds iOpt,
      parse cfg.fm cfg.lm cfg.om s = .ok ds
      ∧ resolveChecksum cfg ds = .ok (iOpt, pc.digits)
      ∧ normString cfg s iOpt = .ok pc.s
      ∧ realityCheck cfg pc.s pc.digits = .ok ()
      ∧ pc.digits.getLast? = some pc.checkDigit
      ∧ pc.givenString = s := by
  unfold pcInit at h
  cases hparse : parse cfg.fm cfg.lm cfg.om s with
  | error e =>
    rw [hparse] at h
    cases e <;> exact absurd h (by simp)
  | ok ds =>
    rw [hparse] at h
    dsimp only at h
    cases hres : resolveChecksum cfg ds with
    | error e =>
      rw [hres] at h
      exact absurd h (by simp)
    | ok pr =>
      obtain ⟨iOpt, dd⟩ := pr
      rw [hres] at h
      dsimp only at h
      cases hnorm : normString cfg s iOpt with
      | error e =>
        rw [hnorm] at h
        exact absurd h (by simp)
      | ok sFinal =>
        rw [hnorm] at h
        dsimp only at h
        cases hreal : realityCheck cfg sFinal dd with
        | error e =>
          rw [hreal] at h
          exact absurd h (by simp)
        | ok u =>
          rw [hreal] at h
          dsimp only at h
          cases hlast : dd.getLast? with
          | none =>
            rw [hlast] at h
            exact absurd h (by simp)
          | some cd =>
            rw [hlast] at h
            dsimp only at h
            obtain rfl : pc = ⟨s, sFinal, dd, cd⟩ := by simpa using h.symm
            exact ⟨ds, iOpt, rfl, hres, hnorm, hreal, hlast, rfl⟩

/-- If `pcInit` fails, every format constructor propagates that failure. -/
theorem mkFormat_pcInit_error {f : Format} {s : List Char} {e : PErr}
    (h : pcInit (fmtCfg f) (fmtInput f s) = .error e) :
    mkFormat f s = .error e := by
  cases f <;>
    · simp only [fmtCfg, fmtInput] at h
      simp only [mkFormat, mkEAN13, mkISBN13, mkISMN13, mkISBN10, mkISMN, mkUPC5,
        ean13Init, h]
      rfl

/-- C7: for every format, an input whose parsed slot sequence contains two
or more wildcard slots fails construction with the too-many-wildcards
`ProductCodeError` (what the spec calls `WildcardCountError`), regardless
of any other validity: `resolveChecksum` raises before the digit count, the
checksum and the structural checks are ever consulted, and every
constructor propagates the failure, so no such input is ever successfully
constructed under any format. -/
theorem c7_two_wildcards_fail (f : Format) (s : List Char)
    (ds : List (Option Int)) (hp : fmtParse f s = .ok ds)
    (hw : 2 ≤ nWild ds) :
    mkFormat f s
      = .error (.pce (some ((fmtCfg f).ty ++ ": too many wildcard digits."))) := by
  apply mkFormat_pcInit_error
  unfold pcInit
  rw [show parse (fmtCfg f).fm (fmtCfg f).lm (fmtCfg f).om (fmtInput f s) = .ok ds from hp]
  dsimp only
  rw [resolveChecksum_two_wild hw]

/-- C7 witness: `ISBN10("**")` parses to two wildcard slots (even the digit
count is wrong, yet the wildcard error is what is raised). -/
theorem c7_two_wildcards_fail_witness :
    mkFormat .isbn10 "**".toList
      = .error (.pce (some ((fmtCfg .isbn10).ty ++ ": too many wildcard digits."))) :=
  c7_two_wildcards_fail .isbn10 "**".toList [none, none] (by rfl) (by decide)

/-- `True` exactly on a successful construction. -/
def exceptOk {α : Type} (e : Except PErr α) : Bool :=
  match e with
  | .ok _ => true
  | .error _ => false

/-- C8 (amended): ISBN-13 construction succeeds only if the first three raw
input characters match 9, 7, then 8 or 9, each possibly a wildcard; ISMN-13
construction succeeds only if the first three raw characters match 9, 7, 9,
each possibly a wildcard (the code checks nothing beyond the third
character, in particular not that the fourth is 0); and when the EAN-13
stage succeeds but the prefix does not match, construction fails with the
format's prefix error. -/
theorem c8_prefix_checks (s : List Char) :
    (∀ r, mkISBN13 s = .ok r →
      (s.get? 0 = some '9' ∨ s.get? 0 = some '*')
      ∧ (s.get? 1 = some '7' ∨ s.get? 1 = some '*')
      ∧ (s.get? 2 = some '8' ∨ s.get? 2 = some '9' ∨ s.get? 2 = some '*'))
    ∧ (∀ r, mkISMN13 s = .ok r →
      (s.get? 0 = some '9' ∨ s.get? 0 = some '*')
      ∧ (s.get? 1 = some '7' ∨ s.get? 1 = some '*')
      ∧ (s.get? 2 = some '9' ∨ s.get? 2 = some '*'))
    ∧ (∀ r a b c, ean13Init "ISBN13" s = .ok r →
        s.get? 0 = some a → s.get? 1 = some b → s.get? 2 = some c →
        ¬((a = '9' ∨ a = '*') ∧ (b = '7' ∨ b = '*') ∧ (c = '8' ∨ c = '9' ∨ c = '*')) →
        mkISBN13 s = .error (.pce (some "ISBN13: must begin with 978 or 979")))
    ∧ (∀ r a b c, ean13Init "ISMN13" s = .ok r →
        s.get? 0 = some a → s.get? 1 = some b → s.get? 2 = some c →
        ¬((a = '9' ∨ a = '*') ∧ (b = '7' ∨ b = '*') ∧ (c = '9' ∨ c = '*')) →
        mkISMN13 s = .error (.pce (some "ISMN13: must begin with 979"))) := by
  refine ⟨?_, ?_, ?_, ?_⟩
  · intro r hr
    unfold mkISBN13 at hr
    cases h13 : ean13Init "ISBN13" s with
    | error e => rw [h13] at hr; exact absurd hr (by simp)
    | ok r0 =>
      rw [h13] at hr
      dsimp only at hr
      cases h0 : s.get? 0 with
      | none => rw [h0] at hr; exact absurd hr (by simp)
      | some a =>
        cases h1 : s.get? 1 with
        | none => rw [h0, h1] at hr; exact absurd hr (by simp)
        | some b =>
          cases h2 : s.get? 2 with
          | none => rw [h0, h1, h2] at hr; exact absurd hr (by simp)
          | some c =>
            rw [h0, h1, h2] at hr
            dsimp only at hr
            by_cases hcond : (a = '9' ∨ a = '*') ∧ (b = '7' ∨ b = '*')
                ∧ (c = '8' ∨ c = '9' ∨ c = '*')
            · obtain ⟨ha, hb, hc⟩ := hcond
              refine ⟨?_, ?_, ?_⟩
              · rcases ha with ha | ha <;> rw [ha] at h0 ⊢ <;> simp
              · rcases hb with hb | hb <;> rw [hb] at h1 ⊢ <;> simp
              · rcases hc with hc | hc | hc <;> rw [hc] at h2 ⊢ <;> simp
            · rw [if_neg hcond] at hr
              exact absurd hr (by simp)
  · intro r hr
    unfold mkISMN13 at hr
    cases h13 : ean13Init "ISMN13" s with
    | error e => rw [h13] at hr; exact absurd hr (by simp)
    | ok r0 =>
      rw [h13] at hr
      dsimp only at hr
      cases h0 : s.get? 0 with
      | none => rw [h0] at hr; exact absurd hr (by simp)
      | some a =>
        cases h1 : s.get? 1 with
        | none => rw [h0, h1] at hr; exact absurd hr (by simp)
        | some b =>
          cases h2 : s.get? 2 with
          | none => rw [h0, h1, h2] at hr; exact absurd hr (by simp)
          | some c =>
            rw [h0, h1, h2] at hr
            dsimp only at hr
            by_cases hcond : (a = '9' ∨ a = '*') ∧ (b = '7' ∨ b = '*')
                ∧ (c = '9' ∨ c = '*')
            · obtain ⟨ha, hb, hc⟩ := hcond
              refine ⟨?_, ?_, ?_⟩
              · rcases ha with ha | ha <;> rw [ha] at h0 ⊢ <;> simp
              · rcases hb with hb | hb <;> rw [hb] at h1 ⊢ <;> simp
              · rcases hc with hc | hc <;> rw [hc] at h2 ⊢ <;> simp
            · rw [if_neg hcond] at hr
              exact absurd hr (by simp)
  · intro r a b c h13 h0 h1 h2 hncond
    unfold mkISBN13
    rw [h13]
    dsimp only
    rw [h0, h1, h2]
    dsimp only
    rw [if_neg hncond]
  · intro r a b c h13 h0 h1 h2 hncond
    unfold mkISMN13
    rw [h13]
    dsimp only
    rw [h0, h1, h2]
    dsimp only
    rw [if_neg hncond]

/-- C8 witness: `"9780000000002"` is a valid ISBN-13 (so its raw prefix
matches), while `"1780000000000"` passes the EAN-13 stage but fails the
prefix check with the prefix error. -/
theorem c8_prefix_checks_witness :
    mkISBN13 "1780000000000".toList
      = .error (.pce (some "ISBN13: must begin with 978 or 979"))
    ∧ ("9780000000002".toList.get? 0 = some '9'
        ∨ "9780000000002".toList.get? 0 = some '*') := by
  constructor
  · cases h13 : ean13Init "ISBN13" "1780000000000".toList with
    | error e =>
      have hok : exceptOk (ean13Init "ISBN13" "1780000000000".toList) = true := by rfl
      rw [h13] at hok
      exact absurd hok (by simp [exceptOk])
    | ok r =>
      exact (c8_prefix_checks "1780000000000".toList).2.2.1 r '1' '7' '8' h13
        rfl rfl rfl (by decide)
  · cases hok : mkISBN13 "9780000000002".toList with
    | error e =>
      have h : exceptOk (mkISBN13 "9780000000002".toList) = true := by rfl
      rw [hok] at h
      exact absurd h (by simp [exceptOk])
    | ok r =>
      exact ((c8_prefix_checks "9780000000002".toList).1 r hok).1

/-! ## Digit-range facts -/

/-- A character map whose digit values all lie in 0..9 (true of every map
except `isbn10LastMap`, which also admits X as 10). -/
def mapLE9 (m : CharMap) : Prop :=
  ∀ c n, m c = some (.digit n) → 0 ≤ n ∧ n ≤ 9

theorem mapLE9_base : mapLE9 baseMap := by
  intro c n h
  unfold baseMap at h
  by_cases hd : c.isDigit
  · rw [if_pos hd] at h
    simp [Char.isDigit, UInt32.le_def, BitVec.le_def] at hd
    obtain ⟨h1, h2⟩ := hd
    have hn : ((c.toNat : Int) - 48) = n := by simpa using h
    have hn' : ((c.val.toBitVec.toNat : Int) - 48) = n := hn
    omega
  · rw [if_neg hd] at h
    exact absurd h (by simp)

theorem mapLE9_upcFirst : mapLE9 upcFirstMap := by
  intro c n h
  unfold upcFirstMap at h
  by_cases hc : c = '*'
  · rw [if_pos hc] at h; exact absurd h (by simp)
  · rw [if_neg hc] at h; exact mapLE9_base c n h

theorem mapLE9_upcLast : mapLE9 upcLastMap := mapLE9_upcFirst

theorem mapLE9_upcOther : mapLE9 upcOtherMap := by
  intro c n h
  unfold upcOtherMap at h
  by_cases hc : c = '*'
  · rw [if_pos hc] at h; exact absurd h (by simp)
  · rw [if_neg hc] at h
    by_cases hd : c = '-'
    · rw [if_pos hd] at h; exact absurd h (by simp)
    · rw [if_neg hd] at h; exact mapLE9_base c n h

theorem look_ok_eq {m : CharMap} {c : Char} {v : CVal} (h : look m c = .ok v) :
    m c = some v := by
  unfold look at h
  cases hm : m c with
  | none => rw [hm] at h; exact absurd h (by simp)
  | some w =>
    rw [hm] at h
    dsimp only at h
    obtain rfl : w = v := by simpa using h
    rfl

theorem lookAll_ok_mem {m : CharMap} {cs : List Char} {vs : List CVal}
    (h : lookAll m cs = .ok vs) : ∀ v ∈ vs, ∃ c, m c = some v := by
  induction cs generalizing vs with
  | nil =>
    unfold lookAll at h
    obtain rfl : vs = [] := by simpa using h.symm
    intro v hv
    exact absurd hv (by simp)
  | cons c cs ih =>
    unfold lookAll at h
    cases hc : look m c with
    | error e => rw [hc] at h; exact absurd h (by simp)
    | ok v0 =>
      rw [hc] at h
      dsimp only at h
      cases hcs : lookAll m cs with
      | error e => rw [hcs] at h; exact absurd h (by simp)
      | ok vs0 =>
        rw [hcs] at h
        dsimp only at h
        obtain rfl : vs = v0 :: vs0 := by simpa using h.symm
        intro v hv
        rcases List.mem_cons.mp hv with rfl | hv
        · exact ⟨c, look_ok_eq hc⟩
        · exact ih hcs v hv

/-- Every resolved slot a successful `parse` produces carries a digit value
of one of the three maps. -/
theorem parse_slot_source {fm lm om : CharMap} {s : List Char}
    {ds : List (Option Int)} (h : parse fm lm om s = .ok ds) :
    ∀ n : Int, some n ∈ ds →
      (∃ c, fm c = some (.digit n)) ∨ (∃ c, om c = some (.digit n))
      ∨ (∃ c, lm c = some (.digit n)) := by
  unfold parse at h
  cases s with
  | nil => exact absurd h (by simp)
  | cons c0 rest =>
    dsimp only at h
    cases h0 : look fm c0 with
    | error e => rw [h0] at h; exact absurd h (by simp)
    | ok v0 =>
      rw [h0] at h
      dsimp only at h
      cases hmid : lookAll om rest.dropLast with
      | error e => rw [hmid] at h; exact absurd h (by simp)
      | ok vs =>
        rw [hmid] at h
        dsimp only at h
        cases hlst : look lm (rest.getLastD c0) with
        | error e => rw [hlst] at h; exact absurd h (by simp)
        | ok vl =>
          rw [hlst] at h
          dsimp only at h
          obtain rfl : ds = (v0 :: (vs ++ [vl])).filterMap cvalSlot := by
            simpa using h.symm
          intro n hn
          obtain ⟨v, hv, hslot⟩ := List.mem_filterMap.mp hn
          have hvd : v = .digit n := by
            cases v with
            | digit m => simpa [cvalSlot] using hslot
            | wild => exact absurd hslot (by simp [cvalSlot])
            | sep => exact absurd hslot (by simp [cvalSlot])
          subst hvd
          rcases List.mem_cons.mp hv with rfl | hv
          · exact .inl ⟨c0, look_ok_eq h0⟩
          · rcases List.mem_append.mp hv with hv | hv
            · exact .inr (.inl (lookAll_ok_mem hmid _ hv))
            · have h' : CVal.digit n = vl := List.mem_singleton.mp hv
              exact .inr (.inr ⟨rest.getLastD c0, h'.symm ▸ look_ok_eq hlst⟩)

/-- Under maps whose digit values are all 0..9, a successful parse yields
slots in 0..9. -/
theorem parse_digit_bound {fm lm om : CharMap} {s : List Char}
    {ds : List (Option Int)} (h : parse fm lm om s = .ok ds)
    (hf : mapLE9 fm) (hl : mapLE9 lm) (ho : mapLE9 om) :
    ∀ n : Int, some n ∈ ds → 0 ≤ n ∧ n ≤ 9 := by
  intro n hn
  rcases parse_slot_source h n hn with ⟨c, hc⟩ | ⟨c, hc⟩ | ⟨c, hc⟩
  · exact hf c n hc
  · exact ho c n hc
  · exact hl c n hc

/-! ## Weighted-sum arithmetic -/

theorem setWild_length (ds : List (Option Int)) (v : Int) :
    (setWild ds v).length = ds.length := List.length_map ds _

theorem setWild_mem {ds : List (Option Int)} {v d : Int} (hd : d ∈ setWild ds v) :
    some d ∈ ds ∨ d = v := by
  obtain ⟨o, ho, hov⟩ := List.mem_map.mp hd
  cases o with
  | some n =>
    left
    have : n = d := by simpa using hov
    exact this ▸ ho
  | none =>
    right
    simpa using hov.symm

/-- With no unresolved slot, the substitution value is irrelevant. -/
theorem setWild_nowild {ds : List (Option Int)} (h : nWild ds = 0) (v : Int) :
    setWild ds v = setWild ds 0 := by
  induction ds with
  | nil => rfl
  | cons o ds ih =>
    cases o with
    | some n =>
      have h' : nWild ds = 0 := by simpa [nWild] using h
      simp [setWild, setWild] at ih ⊢
      exact ih h'
    | none =>
      exact absurd h (by simp [nWild])

/-- With exactly one unresolved slot, the weighted sum is affine in the
substituted value, with slope one of the weights. -/
theorem wsum_setWild_linear {ds : List (Option Int)} {ws : List Int}
    (h1 : nWild ds = 1) (hlen : ds.length = ws.length) :
    ∃ wk ∈ ws, ∀ v : Int,
      wsum (setWild ds v) ws = wsum (setWild ds 0) ws + wk * v := by
  induction ds generalizing ws with
  | nil => exact absurd h1 (by simp [nWild])
  | cons o ds ih =>
    cases ws with
    | nil => exact absurd hlen (by simp)
    | cons w ws =>
      cases o with
      | some d =>
        have h1' : nWild ds = 1 := by simpa [nWild] using h1
        obtain ⟨wk, hwk, hprop⟩ := ih h1' (by simpa using hlen)
        refine ⟨wk, List.mem_cons_of_mem w hwk, fun v => ?_⟩
        simp only [setWild, List.map_cons, Option.getD_some, wsum, List.zipWith_cons_cons,
          List.sum_cons] at hprop ⊢
        rw [hprop v]
        ring
      | none =>
        have h0 : nWild ds = 0 := by simpa [nWild] using h1
        refine ⟨w, List.mem_cons_self w ws, fun v => ?_⟩
        simp only [setWild, List.map_cons, Option.getD_none, wsum, List.zipWith_cons_cons,
          List.sum_cons]
        rw [show (List.map (fun o => o.getD v) ds) = setWild ds v from rfl,
          show (List.map (fun o => o.getD 0) ds) = setWild ds 0 from rfl,
          setWild_nowild h0 v]
        ring

/-- A weight `w` is "solvable" for modulus `m` when every residue can be
cancelled by some candidate digit 0..9 in the `w`-slot. -/
def wSolvable (w m : Int) : Prop :=
  ∀ t : Nat, t < m.toNat → ∃ v ∈ List.range 10, ((t : Int) + w * v) % m = 0

/-- Every successful `resolveChecksum` whose weights are all solvable ends
with a digit list satisfying the checksum equation (the fall-through case
cannot occur for such weights). -/
theorem resolve_ok_checksum {cfg : PCConfig} {ds : List (Option Int)}
    {iOpt : Option Int} {dd : List Int}
    (h : resolveChecksum cfg ds = .ok (iOpt, dd))
    (hmagic : 0 < cfg.magic)
    (hsolv : ∀ w ∈ cfg.weights, wSolvable w cfg.magic) :
    wsum dd cfg.weights % cfg.magic = 0 := by
  obtain ⟨hlen, hc⟩ := resolveChecksum_ok_inv h
  rcases hc with ⟨_, _, rfl, hrem⟩ | ⟨h1, i, hfind, _, rfl⟩ | ⟨h1, _, rfl, hfind⟩
  · exact hrem
  · have := List.find?_some hfind
    simpa using this
  · exfalso
    obtain ⟨wk, hwk, hlin⟩ := wsum_setWild_linear h1 hlen
    set S := wsum (setWild ds 0) cfg.weights with hS
    have ht0 : 0 ≤ S % cfg.magic := Int.emod_nonneg S (by omega)
    have ht1 : S % cfg.magic < cfg.magic := Int.emod_lt_of_pos S hmagic
    obtain ⟨t, htval⟩ : ∃ t : Nat, (t : Int) = S % cfg.magic :=
      ⟨(S % cfg.magic).toNat, Int.toNat_of_nonneg ht0⟩
    have htlt : t < cfg.magic.toNat := by omega
    obtain ⟨v, hvmem, hveq⟩ := hsolv wk hwk t htlt
    have hnone := List.find?_eq_none.mp hfind v hvmem
    apply hnone
    have : wsum (setWild ds (Int.ofNat v)) cfg.weights % cfg.magic = 0 := by
      rw [hlin (Int.ofNat v)]
      have e1 : (S + wk * (Int.ofNat v)) % cfg.magic
          = ((t : Int) + wk * (Int.ofNat v)) % cfg.magic := by
        conv_rhs => rw [htval]
        conv_lhs => rw [Int.add_emod S]
        conv_rhs => rw [Int.add_emod (S % cfg.magic),
          Int.emod_emod_of_dvd S dvd_rfl]
      rw [e1]
      exact hveq
    simpa using this

/-! ## Slicing the concatenated 7-symbol codes -/

theorem setbits_nil_right (bc : Int → Char → List Char) (ps : List Char) :
    setbits bc ps [] = [] := by
  simp [setbits]

theorem setbits_cons (bc : Int → Char → List Char) (p : Char) (ps : List Char)
    (d : Int) (ds : List Int) :
    setbits bc (p :: ps) (d :: ds) = bc d p ++ setbits bc ps ds := by
  simp [setbits]

/-- Taking a multiple of 7 symbols off codes of length 7 takes whole
digits. -/
theorem setbits_take (bc : Int → Char → List Char) :
    ∀ (k : Nat) (ds : List Int) (ps : List Char),
      (∀ d ∈ ds, ∀ p ∈ ps, (bc d p).length = 7) →
      (setbits bc ps ds).take (7 * k) = setbits bc (ps.take k) (ds.take k) := by
  intro k
  induction k with
  | zero => intro ds ps _; simp [setbits]
  | succ k ih =>
    intro ds ps h7
    cases ds with
    | nil => simp [setbits]
    | cons d ds =>
      cases ps with
      | nil => simp [setbits]
      | cons p ps =>
        rw [setbits_cons, List.take_succ_cons, List.take_succ_cons, setbits_cons]
        have hlen : (bc d p).length = 7 :=
          h7 d (List.mem_cons_self d ds) p (List.mem_cons_self p ps)
        rw [show 7 * (k + 1) = (bc d p).length + 7 * k by omega,
          List.take_append_eq_append_take]
        rw [List.take_of_length_le (by omega), show (bc d p).length + 7 * k
          - (bc d p).length = 7 * k by omega]
        rw [ih ds ps (fun d' hd' p' hp' =>
          h7 d' (List.mem_cons_of_mem d hd') p' (List.mem_cons_of_mem p hp'))]

/-- Dropping a multiple of 7 symbols off codes of length 7 drops whole
digits. -/
theorem setbits_drop (bc : Int → Char → List Char) :
    ∀ (k : Nat) (ds : List Int) (ps : List Char),
      (∀ d ∈ ds, ∀ p ∈ ps, (bc d p).length = 7) →
      (setbits bc ps ds).drop (7 * k) = setbits bc (ps.drop k) (ds.drop k) := by
  intro k
  induction k with
  | zero => intro ds ps _; simp
  | succ k ih =>
    intro ds ps h7
    cases ds with
    | nil => simp [setbits]
    | cons d ds =>
      cases ps with
      | nil => simp [setbits]
      | cons p ps =>
        rw [setbits_cons, List.drop_succ_cons, List.drop_succ_cons]
        have hlen : (bc d p).length = 7 :=
          h7 d (List.mem_cons_self d ds) p (List.mem_cons_self p ps)
        rw [show 7 * (k + 1) = (bc d p).length + 7 * k by omega,
          List.drop_append_eq_append_drop]
        rw [List.drop_of_length_le (by omega), show (bc d p).length + 7 * k
          - (bc d p).length = 7 * k by omega, List.nil_append]
        rw [ih ds ps (fun d' hd' p' hp' =>
          h7 d' (List.mem_cons_of_mem d hd') p' (List.mem_cons_of_mem p hp'))]

/-- The length of assembled codes of length 7 each. -/
theorem setbits_length (bc : Int → Char → List Char) :
    ∀ (ds : List Int) (ps : List Char),
      (∀ d ∈ ds, ∀ p ∈ ps, (bc d p).length = 7) →
      (setbits bc ps ds).length = 7 * min ds.length ps.length := by
  intro ds
  induction ds with
  | nil => intro ps _; simp [setbits]
  | cons d ds ih =>
    intro ps h7
    cases ps with
    | nil => simp [setbits]
    | cons p ps =>
      rw [setbits_cons, List.length_append,
        h7 d (List.mem_cons_self d ds) p (List.mem_cons_self p ps),
        ih ps (fun d' hd' p' hp' =>
          h7 d' (List.mem_cons_of_mem d hd') p' (List.mem_cons_of_mem p hp'))]
      simp only [List.length_cons]
      omega

/-- Every symbol of an assembled code comes from one digit's bit-code. -/
theorem setbits_mem (bc : Int → Char → List Char) :
    ∀ (ds : List Int) (ps : List Char) (ch : Char),
      ch ∈ setbits bc ps ds → ∃ d ∈ ds, ∃ p ∈ ps, ch ∈ bc d p := by
  intro ds
  induction ds with
  | nil => intro ps ch h; exact absurd h (by simp [setbits])
  | cons d ds ih =>
    intro ps ch h
    cases ps with
    | nil => exact absurd h (by simp [setbits])
    | cons p ps =>
      rw [setbits_cons] at h
      rcases List.mem_append.mp h with h | h
      · exact ⟨d, List.mem_cons_self d ds, p, List.mem_cons_self p ps, h⟩
      · obtain ⟨d', hd', p', hp', hch⟩ := ih ps ch h
        exact ⟨d', List.mem_cons_of_mem d hd', p', List.mem_cons_of_mem p hp', hch⟩

/-! ## Facts about the fixed tables -/

theorem ean13parity_length {d : Int} (h0 : 0 ≤ d) (h9 : d ≤ 9) :
    (ean13parity d).length = 12 := by
  interval_cases d <;> rfl

theorem ean13parity_mem {d : Int} (h0 : 0 ≤ d) (h9 : d ≤ 9) :
    ∀ p ∈ ean13parity d, p = 'A' ∨ p = 'B' ∨ p = 'C' := by
  interval_cases d <;> decide

theorem ean13bitchar_length {d : Int} {p : Char} (h0 : 0 ≤ d) (h9 : d ≤ 9)
    (hp : p = 'A' ∨ p = 'B' ∨ p = 'C') : (ean13bitchar d p).length = 7 := by
  interval_cases d <;> rcases hp with rfl | rfl | rfl <;> rfl

theorem ean13bitchar_out (d : Int) (p : Char) (h : d < 0 ∨ 9 < d) :
    ean13bitchar d p = [] := by
  have hne : ∀ k : Int, 0 ≤ k → k ≤ 9 → ¬d = k := by
    intro k hk0 hk9
    omega
  unfold ean13bitchar
  rw [if_neg (hne 0 (by norm_num) (by norm_num)),
    if_neg (hne 1 (by norm_num) (by norm_num)),
    if_neg (hne 2 (by norm_num) (by norm_num)),
    if_neg (hne 3 (by norm_num) (by norm_num)),
    if_neg (hne 4 (by norm_num) (by norm_num)),
    if_neg (hne 5 (by norm_num) (by norm_num)),
    if_neg (hne 6 (by norm_num) (by norm_num)),
    if_neg (hne 7 (by norm_num) (by norm_num)),
    if_neg (hne 8 (by norm_num) (by norm_num)),
    if_neg (hne 9 (by norm_num) (by norm_num))]

set_option maxHeartbeats 1600000 in
theorem ean13bitchar_all01 (d : Int) (p : Char) :
    (ean13bitchar d p).all (fun ch => ch = '0' || ch = '1') = true := by
  by_cases hd : 0 ≤ d ∧ d ≤ 9
  · obtain ⟨h1, h2⟩ := hd
    unfold ean13bitchar
    interval_cases d <;> norm_num <;> split_ifs <;> decide
  · rw [ean13bitchar_out d p (by omega)]
    rfl

theorem ean13bitchar_mem01 (d : Int) (p : Char) :
    ∀ ch ∈ ean13bitchar d p, ch = '0' ∨ ch = '1' := by
  intro ch hch
  have h := List.all_eq_true.mp (ean13bitchar_all01 d p) ch hch
  simpa using h

theorem upc5parity_length {d : Int} (h0 : 0 ≤ d) (h9 : d ≤ 9) :
    (upc5parity d).length = 5 := by
  interval_cases d <;> rfl

theorem upc5parity_mem {d : Int} (h0 : 0 ≤ d) (h9 : d ≤ 9) :
    ∀ p ∈ upc5parity d, p = 'O' ∨ p = 'E' := by
  interval_cases d <;> decide

theorem upc5bitchar_length {d : Int} {p : Char} (h0 : 0 ≤ d) (h9 : d ≤ 9)
    (hp : p = 'O' ∨ p = 'E') : (upc5bitchar d p).length = 7 := by
  interval_cases d <;> rcases hp with rfl | rfl <;> rfl

/-! ## EAN-13 constructor inversion -/

theorem ean13Init_ok_inv {ty : String} {s : List Char} {r : EANCode}
    (h : ean13Init ty s = .ok r) :
    ∃ d0, pcInit (ean13Cfg ty) s = .ok r.pc
      ∧ r.pc.digits.head? = some d0
      ∧ r.parityPattern = ean13parity d0
      ∧ r.bits = "L0L".toList
          ++ (setbits ean13bitchar (ean13parity d0) (r.pc.digits.drop 1)).take 42
          ++ "0L0L0".toList
          ++ (setbits ean13bitchar (ean13parity d0) (r.pc.digits.drop 1)).drop 42
          ++ "L0L".toList
      ∧ r.leftDigits = ((r.pc.digits.drop 1).take 6).map intDigitChar
      ∧ r.rightDigits = ((r.pc.digits.drop 7).take 6).map intDigitChar := by
  unfold ean13Init at h
  cases hpc : pcInit (ean13Cfg ty) s with
  | error e => rw [hpc] at h; exact absurd h (by simp)
  | ok pc =>
    rw [hpc] at h
    dsimp only at h
    cases hd0 : pc.digits.head? with
    | none => rw [hd0] at h; exact absurd h (by simp)
    | some d0 =>
      rw [hd0] at h
      dsimp only at h
      obtain rfl : r = ⟨pc, ean13parity d0,
          "L0L".toList ++ (setbits ean13bitchar (ean13parity d0) (pc.digits.drop 1)).take 42
            ++ "0L0L0".toList
            ++ (setbits ean13bitchar (ean13parity d0) (pc.digits.drop 1)).drop 42
            ++ "L0L".toList,
          ((pc.digits.drop 1).take 6).map intDigitChar,
          ((pc.digits.drop 7).take 6).map intDigitChar⟩ := by
        simpa using h.symm
      exact ⟨d0, rfl, hd0, rfl, rfl, rfl, rfl⟩

/-- The ISBN-13 constructor is the EAN-13 constructor (typed "ISBN13")
followed by a prefix check that returns the object unchanged. -/
theorem mkISBN13_ok_ean13 {s : List Char} {r : EANCode}
    (h : mkISBN13 s = .ok r) : ean13Init "ISBN13" s = .ok r := by
  unfold mkISBN13 at h
  cases h13 : ean13Init "ISBN13" s with
  | error e => rw [h13] at h; exact absurd h (by simp)
  | ok r0 =>
    rw [h13] at h
    dsimp only at h
    cases h0 : s.get? 0 with
    | none => rw [h0] at h; exact absurd h (by simp)
    | some a =>
      cases h1 : s.get? 1 with
      | none => rw [h0, h1] at h; exact absurd h (by simp)
      | some b =>
        cases h2 : s.get? 2 with
        | none => rw [h0, h1, h2] at h; exact absurd h (by simp)
        | some c =>
          rw [h0, h1, h2] at h
          dsimp only at h
          split at h
          · obtain rfl : r0 = r := by simpa using h
            rfl
          · exact absurd h (by simp)

theorem mkISMN13_ok_ean13 {s : List Char} {r : EANCode}
    (h : mkISMN13 s = .ok r) : ean13Init "ISMN13" s = .ok r := by
  unfold mkISMN13 at h
  cases h13 : ean13Init "ISMN13" s with
  | error e => rw [h13] at h; exact absurd h (by simp)
  | ok r0 =>
    rw [h13] at h
    dsimp only at h
    cases h0 : s.get? 0 with
    | none => rw [h0] at h; exact absurd h (by simp)
    | some a =>
      cases h1 : s.get? 1 with
      | none => rw [h0, h1] at h; exact absurd h (by simp)
      | some b =>
        cases h2 : s.get? 2 with
        | none => rw [h0, h1, h2] at h; exact absurd h (by simp)
        | some c =>
          rw [h0, h1, h2] at h
          dsimp only at h
          split at h
          · obtain rfl : r0 = r := by simpa using h
            rfl
          · exact absurd h (by simp)

theorem pcInit_digits_length {cfg : PCConfig} {s : List Char} {pc : PC}
    (h : pcInit cfg s = .ok pc) :
    pc.digits.length = cfg.weights.length := by
  obtain ⟨ds, iOpt, hp, hres, _⟩ := pcInit_ok_inv h
  obtain ⟨hlen, hc⟩ := resolveChecksum_ok_inv hres
  rcases hc with ⟨_, _, hdd, _⟩ | ⟨_, i, _, _, hdd⟩ | ⟨_, _, hdd, _⟩ <;>
    rw [hdd, setWild_length] <;> exact hlen

theorem pcInit_digit_bound {cfg : PCConfig} {s : List Char} {pc : PC}
    (h : pcInit cfg s = .ok pc)
    (hf : mapLE9 cfg.fm) (hl : mapLE9 cfg.lm) (ho : mapLE9 cfg.om) :
    ∀ d ∈ pc.digits, 0 ≤ d ∧ d ≤ 9 := by
  obtain ⟨ds, iOpt, hp, hres, _⟩ := pcInit_ok_inv h
  have hds := parse_digit_bound hp hf hl ho
  obtain ⟨hlen, hc⟩ := resolveChecksum_ok_inv hres
  intro d hd
  rcases hc with ⟨_, _, hdd, _⟩ | ⟨_, i, hfind, _, hdd⟩ | ⟨_, _, hdd, _⟩
  · rw [hdd] at hd
    rcases setWild_mem hd with hm | rfl
    · exact hds d hm
    · omega
  · rw [hdd] at hd
    have hi : i < 10 := List.mem_range.mp (List.mem_of_find?_eq_some hfind)
    rcases setWild_mem hd with hm | rfl
    · exact hds d hm
    · have hcast : (Int.ofNat i : Int) = (i : Int) := rfl
      constructor
      · exact Int.ofNat_nonneg i
      · rw [hcast]; omega
  · rw [hdd] at hd
    rcases setWild_mem hd with hm | rfl
    · exact hds d hm
    · omega

/-- C2: every successfully constructed EAN-13-family code (EAN13, ISBN13,
ISMN13) has parity pattern selected from the parity table indexed by the
leading (first) digit — not the check digit — and emits exactly the left
guard `L0L`, the 42 symbols of digits 1..6 under the first six parity
symbols, the center `0L0L0`, the 42 symbols of digits 7..12, and the right
guard `L0L`, where the data symbols are only the ordinary `'0'`/`'1'` bars,
so the tall-guard symbol `'L'` is a distinct third symbol. -/
theorem c2_ean13_bit_layout (s : List Char) (r : EANCode)
    (h : mkEAN13 s = .ok r ∨ mkISBN13 s = .ok r ∨ mkISMN13 s = .ok r) :
    ∃ d0, r.pc.digits.head? = some d0
      ∧ r.parityPattern = ean13parity d0
      ∧ (setbits ean13bitchar (r.parityPattern.take 6)
          ((r.pc.digits.drop 1).take 6)).length = 42
      ∧ (setbits ean13bitchar (r.parityPattern.drop 6)
          ((r.pc.digits.drop 1).drop 6)).length = 42
      ∧ r.bits = "L0L".toList
          ++ setbits ean13bitchar (r.parityPattern.take 6) ((r.pc.digits.drop 1).take 6)
          ++ "0L0L0".toList
          ++ setbits ean13bitchar (r.parityPattern.drop 6) ((r.pc.digits.drop 1).drop 6)
          ++ "L0L".toList
      ∧ (∀ ch, (ch ∈ setbits ean13bitchar (r.parityPattern.take 6)
              ((r.pc.digits.drop 1).take 6)
            ∨ ch ∈ setbits ean13bitchar (r.parityPattern.drop 6)
              ((r.pc.digits.drop 1).drop 6))
          → ch = '0' ∨ ch = '1') := by
  obtain ⟨ty, h13⟩ : ∃ ty, ean13Init ty s = .ok r := by
    rcases h with h | h | h
    · exact ⟨"EAN13", h⟩
    · exact ⟨"ISBN13", mkISBN13_ok_ean13 h⟩
    · exact ⟨"ISMN13", mkISMN13_ok_ean13 h⟩
  obtain ⟨d0, hpc, hd0, hpar, hbits, _, _⟩ := ean13Init_ok_inv h13
  have hbound : ∀ d ∈ r.pc.digits, 0 ≤ d ∧ d ≤ 9 :=
    pcInit_digit_bound hpc mapLE9_upcFirst mapLE9_upcLast mapLE9_upcOther
  have hlen13 : r.pc.digits.length = 13 := pcInit_digits_length hpc
  have hd0mem : d0 ∈ r.pc.digits := by
    cases hl : r.pc.digits with
    | nil => rw [hl] at hd0; exact absurd hd0 (by simp)
    | cons a t =>
      rw [hl] at hd0
      have ha : a = d0 := by simpa using hd0
      subst ha
      exact List.mem_cons_self a t
  obtain ⟨hd00, hd09⟩ := hbound d0 hd0mem
  have hparlen : (ean13parity d0).length = 12 := ean13parity_length hd00 hd09
  have h7 : ∀ d ∈ r.pc.digits.drop 1, ∀ p ∈ ean13parity d0,
      (ean13bitchar d p).length = 7 := by
    intro d hd p hp
    obtain ⟨hdl, hdu⟩ := hbound d (List.mem_of_mem_drop hd)
    exact ean13bitchar_length hdl hdu (ean13parity_mem hd00 hd09 p hp)
  have htake := setbits_take ean13bitchar 6 (r.pc.digits.drop 1) (ean13parity d0) h7
  have hdrop := setbits_drop ean13bitchar 6 (r.pc.digits.drop 1) (ean13parity d0) h7
  rw [show (7 * 6 : Nat) = 42 from by norm_num] at htake hdrop
  rw [htake, hdrop] at hbits
  have h7t : ∀ d ∈ (r.pc.digits.drop 1).take 6, ∀ p ∈ (ean13parity d0).take 6,
      (ean13bitchar d p).length = 7 := fun d hd p hp =>
    h7 d (List.mem_of_mem_take hd) p (List.mem_of_mem_take hp)
  have h7d : ∀ d ∈ (r.pc.digits.drop 1).drop 6, ∀ p ∈ (ean13parity d0).drop 6,
      (ean13bitchar d p).length = 7 := fun d hd p hp =>
    h7 d (List.mem_of_mem_drop hd) p (List.mem_of_mem_drop hp)
  have hlt := setbits_length ean13bitchar ((r.pc.digits.drop 1).take 6)
    ((ean13parity d0).take 6) h7t
  have hld := setbits_length ean13bitchar ((r.pc.digits.drop 1).drop 6)
    ((ean13parity d0).drop 6) h7d
  refine ⟨d0, hd0, hpar, ?_, ?_, ?_, ?_⟩
  · rw [hpar, hlt, List.length_take, List.length_take, List.length_drop, hlen13, hparlen]
    omega
  · rw [hpar, hld, List.length_drop, List.length_drop, List.length_drop, hlen13, hparlen]
    omega
  · rw [hpar]
    exact hbits
  · intro ch hch
    rw [hpar] at hch
    rcases hch with hch | hch
    · obtain ⟨d, _, p, _, hin⟩ := setbits_mem ean13bitchar _ _ ch hch
      exact ean13bitchar_mem01 d p ch hin
    · obtain ⟨d, _, p, _, hin⟩ := setbits_mem ean13bitchar _ _ ch hch
      exact ean13bitchar_mem01 d p ch hin

/-- C2 witness: the valid EAN-13 `"9780966955309"`. -/
theorem c2_ean13_bit_layout_witness :
    exceptOk (mkEAN13 "9780966955309".toList) = true
    ∧ (mkEAN13 "9780966955309".toList).map (fun r => r.bits)
      = (mkEAN13 "9780966955309".toList).map (fun r =>
          "L0L".toList
          ++ setbits ean13bitchar (r.parityPattern.take 6) ((r.pc.digits.drop 1).take 6)
          ++ "0L0L0".toList
          ++ setbits ean13bitchar (r.parityPattern.drop 6) ((r.pc.digits.drop 1).drop 6)
          ++ "L0L".toList) := by
  refine ⟨rfl, ?_⟩
  cases hk : mkEAN13 "9780966955309".toList with
  | error e => rfl
  | ok r =>
    obtain ⟨d0, _, _, _, _, hbits, _⟩ :=
      c2_ean13_bit_layout "9780966955309".toList r (.inl hk)
    simp only [Except.map]
    rw [hbits]

/-! ## Character-class facts -/

theorem isDigit_toNat {c : Char} (h : c.isDigit = true) :
    48 ≤ c.toNat ∧ c.toNat ≤ 57 := by
  simp [Char.isDigit, UInt32.le_def, BitVec.le_def] at h
  obtain ⟨h1, h2⟩ := h
  have h1' : 48 ≤ c.toNat := h1
  have h2' : c.toNat ≤ 57 := h2
  exact ⟨h1', h2'⟩

theorem toUpper_of_toNat_lt {c : Char} (h : c.toNat < 97) : c.toUpper = c := by
  have hn : ¬(c.toNat ≥ 97 ∧ c.toNat ≤ 122) := by omega
  simp [Char.toUpper, hn]

theorem baseMap_some_isDigit {c : Char} {v : CVal} (h : baseMap c = some v) :
    c.isDigit = true := by
  unfold baseMap at h
  by_cases hd : c.isDigit
  · exact hd
  · rw [if_neg hd] at h
    exact absurd h (by simp)

theorem baseMap_char_id {c : Char} {v : CVal} (h : baseMap c = some v) :
    c.toUpper = c ∧ c ≠ '*' := by
  obtain ⟨h1, h2⟩ := isDigit_toNat (baseMap_some_isDigit h)
  constructor
  · exact toUpper_of_toNat_lt (by omega)
  · intro hc
    subst hc
    have : ('*' : Char).toNat = 42 := rfl
    omega

theorem baseMap_some_digit {c : Char} {v : CVal} (h : baseMap c = some v) :
    ∃ n, v = .digit n := by
  unfold baseMap at h
  by_cases hd : c.isDigit
  · rw [if_pos hd] at h
    exact ⟨_, by simpa using h.symm⟩
  · rw [if_neg hd] at h
    exact absurd h (by simp)

/-! ## Parse structure inversion -/

theorem parse_ok_struct {fm lm om : CharMap} {c0 : Char} {rest : List Char}
    {ds : List (Option Int)} (h : parse fm lm om (c0 :: rest) = .ok ds) :
    ∃ v0 vs vl, look fm c0 = .ok v0
      ∧ lookAll om rest.dropLast = .ok vs
      ∧ look lm (rest.getLastD c0) = .ok vl
      ∧ ds = (v0 :: (vs ++ [vl])).filterMap cvalSlot := by
  unfold parse at h
  dsimp only at h
  cases h0 : look fm c0 with
  | error e => rw [h0] at h; exact absurd h (by simp)
  | ok v0 =>
    rw [h0] at h
    dsimp only at h
    cases hmid : lookAll om rest.dropLast with
    | error e => rw [hmid] at h; exact absurd h (by simp)
    | ok vs =>
      rw [hmid] at h
      dsimp only at h
      cases hlst : look lm (rest.getLastD c0) with
      | error e => rw [hlst] at h; exact absurd h (by simp)
      | ok vl =>
        rw [hlst] at h
        dsimp only at h
        exact ⟨v0, vs, vl, rfl, rfl, rfl, by simpa using h.symm⟩

theorem lookAll_ok_length {m : CharMap} {cs : List Char} {vs : List CVal}
    (h : lookAll m cs = .ok vs) : vs.length = cs.length := by
  induction cs generalizing vs with
  | nil =>
    unfold lookAll at h
    obtain rfl : vs = [] := by simpa using h.symm
    rfl
  | cons c cs ih =>
    unfold lookAll at h
    cases hc : look m c with
    | error e => rw [hc] at h; exact absurd h (by simp)
    | ok v0 =>
      rw [hc] at h
      dsimp only at h
      cases hcs : lookAll m cs with
      | error e => rw [hcs] at h; exact absurd h (by simp)
      | ok vs0 =>
        rw [hcs] at h
        dsimp only at h
        obtain rfl : vs = v0 :: vs0 := by simpa using h.symm
        simpa using ih hcs

theorem lookAll_ok_dom {m : CharMap} {cs : List Char} {vs : List CVal}
    (h : lookAll m cs = .ok vs) : ∀ c ∈ cs, ∃ v, m c = some v := by
  induction cs generalizing vs with
  | nil => intro c hc; exact absurd hc (by simp)
  | cons c0 cs ih =>
    unfold lookAll at h
    cases hc : look m c0 with
    | error e => rw [hc] at h; exact absurd h (by simp)
    | ok v0 =>
      rw [hc] at h
      dsimp only at h
      cases hcs : lookAll m cs with
      | error e => rw [hcs] at h; exact absurd h (by simp)
      | ok vs0 =>
        intro c hmem
        rcases List.mem_cons.mp hmem with rfl | hmem
        · exact ⟨v0, look_ok_eq hc⟩
        · exact ih hcs c hmem

theorem lookAll_base_digit {cs : List Char} {vs : List CVal}
    (h : lookAll baseMap cs = .ok vs) : ∀ v ∈ vs, ∃ n, v = .digit n := by
  intro v hv
  obtain ⟨c, hc⟩ := lookAll_ok_mem h v hv
  unfold baseMap at hc
  by_cases hd : c.isDigit
  · rw [if_pos hd] at hc
    exact ⟨_, by simpa using hc.symm⟩
  · rw [if_neg hd] at hc
    exact absurd hc (by simp)

theorem filterMap_cvalSlot_length {l : List CVal} (h : ∀ v ∈ l, v ≠ .sep) :
    (l.filterMap cvalSlot).length = l.length := by
  induction l with
  | nil => rfl
  | cons v l ih =>
    have hv := h v (List.mem_cons_self v l)
    have hrest : ∀ w ∈ l, w ≠ .sep := fun w hw => h w (List.mem_cons_of_mem v hw)
    cases v with
    | digit n => simp [cvalSlot, ih hrest]
    | wild => simp [cvalSlot, ih hrest]
    | sep => exact absurd rfl hv

/-! ## Small list-shape helpers -/

theorem list_six {α : Type} {l : List α} (h : l.length = 6) :
    ∃ a b c d e f, l = [a, b, c, d, e, f] := by
  match l, h with
  | [a, b, c, d, e, f], _ => exact ⟨a, b, c, d, e, f, rfl⟩

theorem list_five {α : Type} {l : List α} (h : l.length = 5) :
    ∃ a b c d e, l = [a, b, c, d, e] := by
  match l, h with
  | [a, b, c, d, e], _ => exact ⟨a, b, c, d, e, rfl⟩

theorem map_id_of {α : Type} {f : α → α} {l : List α}
    (h : ∀ a ∈ l, f a = a) : l.map f = l := by
  induction l with
  | nil => rfl
  | cons a l ih =>
    rw [List.map_cons, h a (List.mem_cons_self a l),
      ih (fun b hb => h b (List.mem_cons_of_mem a hb))]

/-- The weights of `UPC5` can always cancel any residue with a digit 0..9. -/
theorem upc5_solvable : ∀ w ∈ upc5Cfg.weights, wSolvable w upc5Cfg.magic := by
  intro w hw
  unfold wSolvable
  fin_cases hw <;> decide

/-- C6: every successfully constructed UPC-5 add-on has six internal
digits — the five printed input digits plus an internally computed check
digit satisfying the `[3,9,3,9,3,-1]` mod-10 equation — selects its parity
pattern by that check digit, truncates the normalized string back to the
five printed digits, and emits `1011` followed by the five 7-symbol codes
joined by `01` delineators with no trailing guard (the check digit is not
encoded). -/
theorem c6_upc5_layout (s : List Char) (r : UPC5Code) (h : mkUPC5 s = .ok r) :
    ∃ d1 d2 d3 d4 d5 cd p1 p2 p3 p4 p5,
      r.digits = [d1, d2, d3, d4, d5, cd]
      ∧ wsum r.digits upc5Cfg.weights % upc5Cfg.magic = 0
      ∧ r.checkDigit = cd
      ∧ r.parityPattern = upc5parity cd
      ∧ upc5parity cd = [p1, p2, p3, p4, p5]
      ∧ s.length = 5 ∧ r.s = s
      ∧ r.bits = "1011".toList ++ upc5bitchar d1 p1 ++ "01".toList
          ++ upc5bitchar d2 p2 ++ "01".toList ++ upc5bitchar d3 p3 ++ "01".toList
          ++ upc5bitchar d4 p4 ++ "01".toList ++ upc5bitchar d5 p5 := by
  unfold mkUPC5 at h
  cases hpc : pcInit upc5Cfg (s ++ ['*']) with
  | error e => rw [hpc] at h; exact absurd h (by simp)
  | ok pc =>
    rw [hpc] at h
    dsimp only at h
    obtain rfl : r = ⟨pc.s.take 5, pc.digits, pc.checkDigit, upc5parity pc.checkDigit,
        "1011".toList
          ++ (setbits upc5bitchar (upc5parity pc.checkDigit) (pc.digits.take 5)).take 7
          ++ "01".toList
          ++ ((setbits upc5bitchar (upc5parity pc.checkDigit) (pc.digits.take 5)).drop 7).take 7
          ++ "01".toList
          ++ ((setbits upc5bitchar (upc5parity pc.checkDigit) (pc.digits.take 5)).drop 14).take 7
          ++ "01".toList
          ++ ((setbits upc5bitchar (upc5parity pc.checkDigit) (pc.digits.take 5)).drop 21).take 7
          ++ "01".toList
          ++ ((setbits upc5bitchar (upc5parity pc.checkDigit) (pc.digits.take 5)).drop 28).take 7⟩ := by
      simpa using h.symm
    obtain ⟨ds, iOpt, hp, hres, hnorm, hreal, hlast, hgiven⟩ := pcInit_ok_inv hpc
    have hlen6 : pc.digits.length = 6 := by
      rw [pcInit_digits_length hpc]; rfl
    obtain ⟨d1, d2, d3, d4, d5, cd, hdig⟩ := list_six hlen6
    have hbound : ∀ d ∈ pc.digits, 0 ≤ d ∧ d ≤ 9 :=
      pcInit_digit_bound hpc mapLE9_base mapLE9_upcLast mapLE9_base
    have hcd : pc.checkDigit = cd := by
      rw [hdig] at hlast
      simpa using hlast.symm
    have hsum : wsum pc.digits upc5Cfg.weights % upc5Cfg.magic = 0 := by
      have := resolve_ok_checksum hres (by decide) upc5_solvable
      exact this
    -- the input must be five digit characters
    cases s with
    | nil =>
      exfalso
      rw [List.nil_append] at hp
      obtain ⟨v0, vs, vl, h0, _, _, _⟩ := parse_ok_struct hp
      have := look_ok_eq h0
      rw [show (upc5Cfg.fm '*') = none from rfl] at this
      exact absurd this (by simp)
    | cons c0 s' =>
      rw [List.cons_append] at hp
      obtain ⟨v0, vs, vl, h0, hmid, hlst, hds⟩ := parse_ok_struct hp
      rw [List.dropLast_concat] at hmid
      rw [List.getLastD_concat] at hlst
      have hc0 : upc5Cfg.fm c0 = some v0 := look_ok_eq h0
      have hc0' : baseMap c0 = some v0 := hc0
      have hvl : upc5Cfg.lm '*' = some vl := look_ok_eq hlst
      have hvlw : vl = CVal.wild := by
        rw [show (upc5Cfg.lm '*') = some CVal.wild from rfl] at hvl
        simpa using hvl.symm
      have hdigs : ∀ c ∈ c0 :: s', c.toUpper = c ∧ c ≠ '*' := by
        intro c hc
        rcases List.mem_cons.mp hc with rfl | hc
        · exact baseMap_char_id hc0'
        · obtain ⟨v, hv⟩ := lookAll_ok_dom hmid c hc
          exact baseMap_char_id hv
      have hnosep : ∀ v ∈ v0 :: (vs ++ [vl]), v ≠ CVal.sep := by
        intro v hv
        rcases List.mem_cons.mp hv with rfl | hv
        · obtain ⟨n, rfl⟩ := baseMap_some_digit hc0'
          simp
        · rcases List.mem_append.mp hv with hv | hv
          · obtain ⟨n, rfl⟩ := lookAll_base_digit hmid v hv
            simp
          · rw [List.mem_singleton.mp hv, hvlw]
            simp
      have hdslen : ds.length = s'.length + 2 := by
        rw [hds, filterMap_cvalSlot_length hnosep]
        simp [lookAll_ok_length hmid]
      have hlen' : ds.length = 6 := by
        obtain ⟨hl, _⟩ := resolveChecksum_ok_inv hres
        rw [hl]; rfl
      have hslen : s'.length + 1 = 5 := by omega
      -- the normalized string: upper is the identity and the star is last
      have hupid : upperStr ((c0 :: s') ++ ['*']) = (c0 :: s') ++ ['*'] := by
        unfold upperStr
        rw [List.map_append]
        rw [map_id_of (fun a ha => (hdigs a ha).1)]
        rfl
      have hsfin : pc.s.take 5 = c0 :: s' := by
        unfold normString at hnorm
        cases hiOpt : iOpt with
        | none =>
          rw [hiOpt] at hnorm
          dsimp only at hnorm
          have hpcs : pc.s = (c0 :: s') ++ ['*'] := by
            rw [← hupid]; simpa using hnorm.symm
          rw [hpcs, show (5 : Nat) = ((c0 :: s').length) from by simp; omega,
            List.take_left]
        | some i =>
          rw [hiOpt] at hnorm
          dsimp only at hnorm
          cases hi2c : int2char upc5Cfg i with
          | error e => rw [hi2c] at hnorm; exact absurd hnorm (by simp)
          | ok ch =>
            rw [hi2c] at hnorm
            dsimp only at hnorm
            have hpcs : pc.s = substStar ((c0 :: s') ++ ['*']) ch := by
              rw [← hupid]; simpa using hnorm.symm
            unfold substStar at hpcs
            rw [List.map_append] at hpcs
            rw [map_id_of (fun a ha => by
              rw [if_neg (hdigs a ha).2])] at hpcs
            have : pc.s = (c0 :: s') ++ [ch] := by
              rw [hpcs]; rfl
            rw [this, show (5 : Nat) = ((c0 :: s').length) from by simp; omega,
              List.take_left]
      -- parity pattern shape
      have hcdmem : cd ∈ pc.digits := by rw [hdig]; simp
      obtain ⟨hcd0, hcd9⟩ := hbound cd hcdmem
      obtain ⟨p1, p2, p3, p4, p5, hpar⟩ := list_five (upc5parity_length hcd0 hcd9)
      -- code lengths
      have hds5 : pc.digits.take 5 = [d1, d2, d3, d4, d5] := by
        rw [hdig]; rfl
      have h7 : ∀ d ∈ [d1, d2, d3, d4, d5], ∀ p ∈ [p1, p2, p3, p4, p5],
          (upc5bitchar d p).length = 7 := by
        intro d hd p hp
        have hdm : d ∈ pc.digits := by
          rw [hdig]
          simp only [List.mem_cons] at hd ⊢
          tauto
        obtain ⟨hd0, hd9⟩ := hbound d hdm
        have hpm : p ∈ upc5parity cd := by rw [hpar]; exact hp
        exact upc5bitchar_length hd0 hd9 (upc5parity_mem hcd0 hcd9 p hpm)
      refine ⟨d1, d2, d3, d4, d5, cd, p1, p2, p3, p4, p5, hdig, hsum, hcd, by rw [hcd],
        hpar, by simpa using hslen, hsfin, ?_⟩
      -- assemble the bit slices
      rw [hcd, hds5, hpar]
      have hsub : ∀ d p, d ∈ ([d2, d3, d4, d5] : List Int) →
          p ∈ ([p2, p3, p4, p5] : List Char) → (upc5bitchar d p).length = 7 :=
        fun d p hd hp =>
          h7 d (List.mem_cons_of_mem d1 hd) p (List.mem_cons_of_mem p1 hp)
      have e0 := setbits_take upc5bitchar 1 [d1, d2, d3, d4, d5] [p1, p2, p3, p4, p5] h7
      have e1 := setbits_drop upc5bitchar 1 [d1, d2, d3, d4, d5] [p1, p2, p3, p4, p5] h7
      have e2 := setbits_drop upc5bitchar 2 [d1, d2, d3, d4, d5] [p1, p2, p3, p4, p5] h7
      have e3 := setbits_drop upc5bitchar 3 [d1, d2, d3, d4, d5] [p1, p2, p3, p4, p5] h7
      have e4 := setbits_drop upc5bitchar 4 [d1, d2, d3, d4, d5] [p1, p2, p3, p4, p5] h7
      rw [show (7 * 1 : Nat) = 7 by norm_num] at e0 e1
      rw [show (7 * 2 : Nat) = 14 by norm_num] at e2
      rw [show (7 * 3 : Nat) = 21 by norm_num] at e3
      rw [show (7 * 4 : Nat) = 28 by norm_num] at e4
      have t1 : (setbits upc5bitchar [p2, p3, p4, p5] [d2, d3, d4, d5]).take 7
          = upc5bitchar d2 p2 := by
        have h' := setbits_take upc5bitchar 1 [d2, d3, d4, d5] [p2, p3, p4, p5]
          (fun d hd p hp => hsub d p hd hp)
        rw [show (7 * 1 : Nat) = 7 by norm_num] at h'
        rw [h']
        simp [setbits]
      have t2 : (setbits upc5bitchar [p3, p4, p5] [d3, d4, d5]).take 7
          = upc5bitchar d3 p3 := by
        have h' := setbits_take upc5bitchar 1 [d3, d4, d5] [p3, p4, p5]
          (fun d hd p hp => hsub d p (List.mem_cons_of_mem d2 hd)
            (List.mem_cons_of_mem p2 hp))
        rw [show (7 * 1 : Nat) = 7 by norm_num] at h'
        rw [h']
        simp [setbits]
      have t3 : (setbits upc5bitchar [p4, p5] [d4, d5]).take 7
          = upc5bitchar d4 p4 := by
        have h' := setbits_take upc5bitchar 1 [d4, d5] [p4, p5]
          (fun d hd p hp => hsub d p
            (List.mem_cons_of_mem d2 (List.mem_cons_of_mem d3 hd))
            (List.mem_cons_of_mem p2 (List.mem_cons_of_mem p3 hp)))
        rw [show (7 * 1 : Nat) = 7 by norm_num] at h'
        rw [h']
        simp [setbits]
      have t4 : (setbits upc5bitchar [p5] [d5]).take 7 = upc5bitchar d5 p5 := by
        have h' := setbits_take upc5bitchar 1 [d5] [p5]
          (fun d hd p hp => hsub d p
            (List.mem_cons_of_mem d2 (List.mem_cons_of_mem d3
              (List.mem_cons_of_mem d4 hd)))
            (List.mem_cons_of_mem p2 (List.mem_cons_of_mem p3
              (List.mem_cons_of_mem p4 hp))))
        rw [show (7 * 1 : Nat) = 7 by norm_num] at h'
        rw [h']
        simp [setbits]
      have t0 : (setbits upc5bitchar [p1, p2, p3, p4, p5] [d1, d2, d3, d4, d5]).take 7
          = upc5bitchar d1 p1 := by
        rw [e0]
        simp [setbits]
      rw [t0, e1, e2, e3, e4]
      simp only [List.drop_succ_cons, List.drop_zero]
      rw [t1, t2, t3, t4]

/-- C6 witness: the add-on `"90000"` (internal check digit 7). -/
theorem c6_upc5_layout_witness :
    (mkUPC5 "90000".toList).map (fun r => (r.digits, r.checkDigit, r.s))
      = .ok ([9, 0, 0, 0, 0, 7], 7, "90000".toList)
    ∧ (mkUPC5 "90000".toList).map
        (fun r => wsum r.digits upc5Cfg.weights % upc5Cfg.magic) = .ok 0 := by
  constructor
  · rfl
  · cases hk : mkUPC5 "90000".toList with
    | error e =>
      have hok : exceptOk (mkUPC5 "90000".toList) = true := by rfl
      rw [hk] at hok
      exact absurd hok (by simp [exceptOk])
    | ok r =>
      obtain ⟨d1, d2, d3, d4, d5, cd, p1, p2, p3, p4, p5, hdig, hsum, _⟩ :=
        c6_upc5_layout "90000".toList r hk
      simp only [Except.map]
      rw [hsum]

/-! ## Error kinds: non-empty inputs only ever fail with `ProductCodeError` -/

theorem look_error_keyErr {m : CharMap} {c : Char} {e : PErr}
    (h : look m c = .error e) : ∃ c', e = .keyErr c' := by
  unfold look at h
  cases hm : m c with
  | none => rw [hm] at h; exact ⟨c, by simpa using h.symm⟩
  | some v => rw [hm] at h; exact absurd h (by simp)

theorem lookAll_error_keyErr {m : CharMap} {cs : List Char} {e : PErr}
    (h : lookAll m cs = .error e) : ∃ c', e = .keyErr c' := by
  induction cs with
  | nil => exact absurd h (by simp [lookAll])
  | cons c cs ih =>
    unfold lookAll at h
    cases hc : look m c with
    | error e' =>
      rw [hc] at h
      dsimp only at h
      obtain rfl : e' = e := by simpa using h
      exact look_error_keyErr hc
    | ok v =>
      rw [hc] at h
      dsimp only at h
      cases hcs : lookAll m cs with
      | error e' =>
        rw [hcs] at h
        dsimp only at h
        obtain rfl : e' = e := by simpa using h
        exact ih hcs
      | ok vs => rw [hcs] at h; exact absurd h (by simp)

theorem parse_error_keyErr {fm lm om : CharMap} {s : List Char} {e : PErr}
    (hne : s ≠ []) (h : parse fm lm om s = .error e) : ∃ c', e = .keyErr c' := by
  cases s with
  | nil => exact absurd rfl hne
  | cons c0 rest =>
    unfold parse at h
    dsimp only at h
    cases h0 : look fm c0 with
    | error e' =>
      rw [h0] at h
      dsimp only at h
      obtain rfl : e' = e := by simpa using h
      exact look_error_keyErr h0
    | ok v0 =>
      rw [h0] at h
      dsimp only at h
      cases hmid : lookAll om rest.dropLast with
      | error e' =>
        rw [hmid] at h
        dsimp only at h
        obtain rfl : e' = e := by simpa using h
        exact lookAll_error_keyErr hmid
      | ok vs =>
        rw [hmid] at h
        dsimp only at h
        cases hlst : look lm (rest.getLastD c0) with
        | error e' =>
          rw [hlst] at h
          dsimp only at h
          obtain rfl : e' = e := by simpa using h
          exact look_error_keyErr hlst
        | ok vl => rw [hlst] at h; exact absurd h (by simp)

theorem resolveChecksum_error_pce {cfg : PCConfig} {ds : List (Option Int)} {e : PErr}
    (h : resolveChecksum cfg ds = .error e) : ∃ m, e = .pce m := by
  unfold resolveChecksum remainder at h
  by_cases h0 : nWild ds = 0
  · rw [if_pos h0] at h
    by_cases hlen : (setWild ds 0).length = cfg.weights.length
    · rw [if_pos hlen] at h
      dsimp only at h
      by_cases hrem : wsum (setWild ds 0) cfg.weights % cfg.magic = 0
      · rw [if_pos hrem] at h; exact absurd h (by simp)
      · rw [if_neg hrem] at h
        exact ⟨_, by simpa using h.symm⟩
    · rw [if_neg hlen] at h
      dsimp only at h
      exact ⟨_, by simpa using h.symm⟩
  · rw [if_neg h0] at h
    by_cases h1 : nWild ds = 1
    · rw [if_pos h1] at h
      by_cases hlen : ds.length = cfg.weights.length
      · rw [if_pos hlen] at h
        cases hfind : (List.range 10).find?
            (fun i => wsum (setWild ds (Int.ofNat i)) cfg.weights % cfg.magic == 0) with
        | some i => rw [hfind] at h; exact absurd h (by simp)
        | none => rw [hfind] at h; exact absurd h (by simp)
      · rw [if_neg hlen] at h
        exact ⟨_, by simpa using h.symm⟩
    · rw [if_neg h1] at h
      exact ⟨_, by simpa using h.symm⟩

theorem int2char_error_pce {cfg : PCConfig} {n : Int} {e : PErr}
    (h : int2char cfg n = .error e) : ∃ m, e = .pce m := by
  unfold int2char at h
  split_ifs at h
  injection h with h'
  exact ⟨_, h'.symm⟩

theorem realityCheck_error_pce {cfg : PCConfig} {s : List Char} {digits : List Int}
    {e : PErr} (hne : s ≠ []) (h : realityCheck cfg s digits = .error e) :
    ∃ m, e = .pce m := by
  cases s with
  | nil => exact absurd rfl hne
  | cons c0 rest =>
    unfold realityCheck at h
    dsimp only at h
    split at h
    · exact absurd h (by simp)
    · injection h with h'
      exact ⟨_, h'.symm⟩

/-- On a non-empty input with a non-empty weight vector, `pcInit` can only
fail with a `ProductCodeError` (never a bare `IndexError`). -/
theorem pcInit_error_pce {cfg : PCConfig} {s : List Char} {e : PErr}
    (hne : s ≠ []) (hw : cfg.weights ≠ []) (h : pcInit cfg s = .error e) :
    ∃ m, e = .pce m := by
  unfold pcInit at h
  cases hp : parse cfg.fm cfg.lm cfg.om s with
  | error e' =>
    obtain ⟨c', rfl⟩ := parse_error_keyErr hne hp
    rw [hp] at h
    dsimp only at h
    exact ⟨_, by simpa using h.symm⟩
  | ok ds =>
    rw [hp] at h
    dsimp only at h
    cases hres : resolveChecksum cfg ds with
    | error e' =>
      rw [hres] at h
      dsimp only at h
      obtain rfl : e' = e := by simpa using h
      exact resolveChecksum_error_pce hres
    | ok pr =>
      obtain ⟨iOpt, dd⟩ := pr
      rw [hres] at h
      dsimp only at h
      have hddne : dd ≠ [] := by
        obtain ⟨hlen, hc⟩ := resolveChecksum_ok_inv hres
        intro hddnil
        have : dd.length = 0 := by rw [hddnil]; rfl
        rcases hc with ⟨_, _, hdd, _⟩ | ⟨_, i, _, _, hdd⟩ | ⟨_, _, hdd, _⟩ <;>
          · rw [hdd, setWild_length] at this
            rw [hlen] at this
            exact hw (List.length_eq_zero.mp this)
      cases hnorm : normString cfg s iOpt with
      | error e' =>
        rw [hnorm] at h
        dsimp only at h
        obtain rfl : e' = e := by simpa using h
        unfold normString at hnorm
        cases hiOpt : iOpt with
        | none => rw [hiOpt] at hnorm; exact absurd hnorm (by simp)
        | some i =>
          rw [hiOpt] at hnorm
          dsimp only at hnorm
          cases hi2c : int2char cfg i with
          | error e'' =>
            rw [hi2c] at hnorm
            dsimp only at hnorm
            obtain rfl : e'' = e' := by simpa using hnorm
            exact int2char_error_pce hi2c
          | ok c => rw [hi2c] at hnorm; exact absurd hnorm (by simp)
      | ok sFinal =>
        rw [hnorm] at h
        dsimp only at h
        have hsfne : sFinal ≠ [] := by
          unfold normString at hnorm
          cases hiOpt : iOpt with
          | none =>
            rw [hiOpt] at hnorm
            have : upperStr s = sFinal := by simpa using hnorm
            rw [← this]
            unfold upperStr
            simpa using hne
          | some i =>
            rw [hiOpt] at hnorm
            dsimp only at hnorm
            cases hi2c : int2char cfg i with
            | error e'' => rw [hi2c] at hnorm; exact absurd hnorm (by simp)
            | ok c =>
              rw [hi2c] at hnorm
              dsimp only at hnorm
              have : substStar (upperStr s) c = sFinal := by simpa using hnorm
              rw [← this]
              unfold substStar upperStr
              simpa using hne
        cases hreal : realityCheck cfg sFinal dd with
        | error e' =>
          rw [hreal] at h
          dsimp only at h
          obtain rfl : e' = e := by simpa using h
          exact realityCheck_error_pce hsfne hreal
        | ok u =>
          rw [hreal] at h
          dsimp only at h
          cases hlast : dd.getLast? with
          | none =>
            exact absurd (List.getLast?_eq_none_iff.mp hlast) hddne
          | some cd => rw [hlast] at h; exact absurd h (by simp)

theorem parse_length_le {fm lm om : CharMap} {s : List Char}
    {ds : List (Option Int)} (h : parse fm lm om s = .ok ds) :
    ds.length ≤ s.length + 1 := by
  cases s with
  | nil => exact absurd h (by simp [parse])
  | cons c0 rest =>
    obtain ⟨v0, vs, vl, _, hmid, _, hds⟩ := parse_ok_struct h
    rw [hds]
    have h1 := List.length_filterMap_le cvalSlot (v0 :: (vs ++ [vl]))
    have h2 := lookAll_ok_length hmid
    have h3 : rest.dropLast.length ≤ rest.length := by
      rw [List.length_dropLast]; omega
    have h0 : (v0 :: (vs ++ [vl])).length = vs.length + 2 := by simp
    rw [h0, h2] at h1
    simp only [List.length_cons]
    omega

theorem ean13Init_error_pce {ty : String} {s : List Char} {e : PErr}
    (hne : s ≠ []) (h : ean13Init ty s = .error e) : ∃ m, e = .pce m := by
  unfold ean13Init at h
  cases hpc : pcInit (ean13Cfg ty) s with
  | error e' =>
    rw [hpc] at h
    dsimp only at h
    obtain rfl : e' = e := by simpa using h
    exact pcInit_error_pce hne (by simp [ean13Cfg, ean13Weights]) hpc
  | ok pc =>
    rw [hpc] at h
    dsimp only at h
    cases hd0 : pc.digits.head? with
    | none =>
      exfalso
      have hlen := pcInit_digits_length hpc
      have hnil : pc.digits = [] := by
        cases hl : pc.digits with
        | nil => rfl
        | cons a t => rw [hl] at hd0; exact absurd hd0 (by simp)
      rw [hnil] at hlen
      simp [ean13Cfg, ean13Weights] at hlen
    | some d0 => rw [hd0] at h; exact absurd h (by simp)

theorem ean13Init_ok_slen {ty : String} {s : List Char} {r : EANCode}
    (h : ean13Init ty s = .ok r) : 12 ≤ s.length := by
  obtain ⟨d0, hpc, _⟩ := ean13Init_ok_inv h
  obtain ⟨ds, iOpt, hp, hres, _⟩ := pcInit_ok_inv hpc
  have h1 : ds.length = 13 := by
    obtain ⟨hl, _⟩ := resolveChecksum_ok_inv hres
    rw [hl]; rfl
  have h2 := parse_length_le hp
  omega

theorem get?_some_of_lt {α : Type} {l : List α} {n : Nat} (h : n < l.length) :
    ∃ a, l.get? n = some a := by
  cases hg : l.get? n with
  | none =>
    have := List.get?_eq_none.mp hg
    omega
  | some a => exact ⟨a, rfl⟩

theorem mkISBN13_error_pce {s : List Char} {e : PErr}
    (hne : s ≠ []) (h : mkISBN13 s = .error e) : ∃ m, e = .pce m := by
  unfold mkISBN13 at h
  cases h13 : ean13Init "ISBN13" s with
  | error e' =>
    rw [h13] at h
    dsimp only at h
    obtain rfl : e' = e := by simpa using h
    exact ean13Init_error_pce hne h13
  | ok r =>
    rw [h13] at h
    dsimp only at h
    have hslen := ean13Init_ok_slen h13
    obtain ⟨a, ha⟩ := get?_some_of_lt (l := s) (n := 0) (by omega)
    obtain ⟨b, hb⟩ := get?_some_of_lt (l := s) (n := 1) (by omega)
    obtain ⟨c, hc⟩ := get?_some_of_lt (l := s) (n := 2) (by omega)
    rw [ha, hb, hc] at h
    dsimp only at h
    split at h
    · exact absurd h (by simp)
    · injection h with h'
      exact ⟨_, h'.symm⟩

theorem mkISMN13_error_pce {s : List Char} {e : PErr}
    (hne : s ≠ []) (h : mkISMN13 s = .error e) : ∃ m, e = .pce m := by
  unfold mkISMN13 at h
  cases h13 : ean13Init "ISMN13" s with
  | error e' =>
    rw [h13] at h
    dsimp only at h
    obtain rfl : e' = e := by simpa using h
    exact ean13Init_error_pce hne h13
  | ok r =>
    rw [h13] at h
    dsimp only at h
    have hslen := ean13Init_ok_slen h13
    obtain ⟨a, ha⟩ := get?_some_of_lt (l := s) (n := 0) (by omega)
    obtain ⟨b, hb⟩ := get?_some_of_lt (l := s) (n := 1) (by omega)
    obtain ⟨c, hc⟩ := get?_some_of_lt (l := s) (n := 2) (by omega)
    rw [ha, hb, hc] at h
    dsimp only at h
    split at h
    · exact absurd h (by simp)
    · injection h with h'
      exact ⟨_, h'.symm⟩

theorem mkISBN10_error_pce {s : List Char} {e : PErr}
    (hne : s ≠ []) (h : mkISBN10 s = .error e) : ∃ m, e = .pce m := by
  unfold mkISBN10 at h
  cases hpc : pcInit isbn10Cfg s with
  | error e' =>
    rw [hpc] at h
    dsimp only at h
    obtain rfl : e' = e := by simpa using h
    exact pcInit_error_pce hne (by simp [isbn10Cfg]) hpc
  | ok pc =>
    rw [hpc] at h
    dsimp only at h
    cases h13 : mkISBN13 (isbn10as13str pc.s) with
    | error e' =>
      rw [h13] at h
      dsimp only at h
      obtain rfl : e' = e := by simpa using h
      exact mkISBN13_error_pce (by simp [isbn10as13str]) h13
    | ok e13 => rw [h13] at h; exact absurd h (by simp)

theorem mkISMN_error_pce {s : List Char} {e : PErr}
    (hne : s ≠ []) (h : mkISMN s = .error e) : ∃ m, e = .pce m := by
  unfold mkISMN at h
  cases hpc : pcInit ismnCfg s with
  | error e' =>
    rw [hpc] at h
    dsimp only at h
    obtain rfl : e' = e := by simpa using h
    exact pcInit_error_pce hne (by simp [ismnCfg]) hpc
  | ok pc =>
    rw [hpc] at h
    dsimp only at h
    cases h13 : mkISMN13 (ismnAs13str pc.s) with
    | error e' =>
      rw [h13] at h
      dsimp only at h
      obtain rfl : e' = e := by simpa using h
      exact mkISMN13_error_pce (by simp [ismnAs13str]) h13
    | ok e13 => rw [h13] at h; exact absurd h (by simp)

theorem mkISBN10_ok_inv {s : List Char} {r : ISBN10Code}
    (h : mkISBN10 s = .ok r) :
    ∃ pc e13, pcInit isbn10Cfg s = .ok pc
      ∧ mkISBN13 (isbn10as13str pc.s) = .ok e13 ∧ r = ⟨pc, e13.bits⟩ := by
  unfold mkISBN10 at h
  cases hpc : pcInit isbn10Cfg s with
  | error e => rw [hpc] at h; exact absurd h (by simp)
  | ok pc =>
    rw [hpc] at h
    dsimp only at h
    cases h13 : mkISBN13 (isbn10as13str pc.s) with
    | error e => rw [h13] at h; exact absurd h (by simp)
    | ok e13 =>
      rw [h13] at h
      dsimp only at h
      exact ⟨pc, e13, rfl, h13, by simpa using h.symm⟩

theorem mkEAN13_error_pce {s : List Char} {e : PErr}
    (hne : s ≠ []) (h : mkEAN13 s = .error e) : ∃ m, e = .pce m :=
  ean13Init_error_pce hne h

/-- C4 (amended): for every NON-EMPTY input string the dispatcher honours
the fixed priority order — ISBN-13 first; on a `ProductCodeError` failure
ISBN-10, whose success is normalized to ISBN-13 via `as13` under the
default `forceISBN13`; then ISMN; then plain EAN-13 — returning the first
success, discarding each failed attempt's error, and raising the bare
(empty-message) `ProductCodeError` when every attempt fails; with
`forceISMN13` set it fails immediately with the not-implemented error for
every input.  (On the empty string an `IndexError` escapes instead; see the
counterexample.) -/
theorem c4_dispatcher_priority (s : List Char) (hne : s ≠ []) :
    (∀ f13 : Bool, makeProductCode s f13 true
      = .error (.pce (some "there is no ISMN13 yet.")))
    ∧ (∀ r, mkISBN13 s = .ok r → makeProductCode s true false = .ok (.isbn13C r))
    ∧ (∀ e1 r, mkISBN13 s = .error e1 → mkISBN10 s = .ok r →
        ∃ r13, isbn10as13 r = .ok r13
          ∧ makeProductCode s true false = .ok (.isbn13C r13))
    ∧ (∀ e1 e2 r, mkISBN13 s = .error e1 → mkISBN10 s = .error e2 →
        mkISMN s = .ok r → makeProductCode s true false = .ok (.ismnC r))
    ∧ (∀ e1 e2 e3 r, mkISBN13 s = .error e1 → mkISBN10 s = .error e2 →
        mkISMN s = .error e3 → mkEAN13 s = .ok r →
        makeProductCode s true false = .ok (.ean13C r))
    ∧ (∀ e1 e2 e3 e4, mkISBN13 s = .error e1 → mkISBN10 s = .error e2 →
        mkISMN s = .error e3 → mkEAN13 s = .error e4 →
        makeProductCode s true false = .error (.pce none)) := by
  refine ⟨?_, ?_, ?_, ?_, ?_, ?_⟩
  · intro f13
    unfold makeProductCode
    rw [if_pos rfl]
  · intro r hr
    unfold makeProductCode
    rw [if_neg (by simp), hr]
  · intro e1 r he1 hr
    obtain ⟨m1, rfl⟩ := mkISBN13_error_pce hne he1
    obtain ⟨pc, e13, hpc, h13, rfl⟩ := mkISBN10_ok_inv hr
    refine ⟨e13, ?_, ?_⟩
    · unfold isbn10as13
      exact h13
    · unfold makeProductCode
      rw [if_neg (by simp), he1]
      dsimp only
      unfold mpcTryISBN10
      rw [hr]
      dsimp only
      rw [if_pos rfl]
      unfold isbn10as13
      dsimp only
      rw [h13]
  · intro e1 e2 r he1 he2 hr
    obtain ⟨m1, rfl⟩ := mkISBN13_error_pce hne he1
    obtain ⟨m2, rfl⟩ := mkISBN10_error_pce hne he2
    unfold makeProductCode
    rw [if_neg (by simp), he1]
    dsimp only
    unfold mpcTryISBN10
    rw [he2]
    dsimp only
    unfold mpcTryISMN
    rw [hr]
    dsimp only
    rw [if_neg (by simp)]
  · intro e1 e2 e3 r he1 he2 he3 hr
    obtain ⟨m1, rfl⟩ := mkISBN13_error_pce hne he1
    obtain ⟨m2, rfl⟩ := mkISBN10_error_pce hne he2
    obtain ⟨m3, rfl⟩ := mkISMN_error_pce hne he3
    unfold makeProductCode
    rw [if_neg (by simp), he1]
    dsimp only
    unfold mpcTryISBN10
    rw [he2]
    dsimp only
    unfold mpcTryISMN
    rw [he3]
    dsimp only
    unfold mpcTryEAN13
    rw [hr]
  · intro e1 e2 e3 e4 he1 he2 he3 he4
    obtain ⟨m1, rfl⟩ := mkISBN13_error_pce hne he1
    obtain ⟨m2, rfl⟩ := mkISBN10_error_pce hne he2
    obtain ⟨m3, rfl⟩ := mkISMN_error_pce hne he3
    obtain ⟨m4, rfl⟩ := mkEAN13_error_pce hne he4
    unfold makeProductCode
    rw [if_neg (by simp), he1]
    dsimp only
    unfold mpcTryISBN10
    rw [he2]
    dsimp only
    unfold mpcTryISMN
    rw [he3]
    dsimp only
    unfold mpcTryEAN13
    rw [he4]

/-- C4 witness: `forceISMN13` refuses `"5"`; the valid `"9780000000002"`
wins as ISBN-13; the invalid `"5"` exhausts all four formats and raises the
bare aggregate error. -/
theorem c4_dispatcher_priority_witness :
    makeProductCode "5".toList true true
      = .error (.pce (some "there is no ISMN13 yet."))
    ∧ makeProductCode "9780000000002".toList true false
      = (mkISBN13 "9780000000002".toList).map PCode.isbn13C
    ∧ makeProductCode "5".toList true false = .error (.pce none) := by
  refine ⟨(c4_dispatcher_priority "5".toList (by decide)).1 true, ?_, ?_⟩
  · cases hk : mkISBN13 "9780000000002".toList with
    | error e =>
      have hok : exceptOk (mkISBN13 "9780000000002".toList) = true := by rfl
      rw [hk] at hok
      exact absurd hok (by simp [exceptOk])
    | ok r =>
      rw [(c4_dispatcher_priority "9780000000002".toList (by decide)).2.1 r hk]
      rfl
  · cases h1 : mkISBN13 "5".toList with
    | ok r =>
      have hok : exceptOk (mkISBN13 "5".toList) = false := by rfl
      rw [h1] at hok
      exact absurd hok (by simp [exceptOk])
    | error e1 =>
      cases h2 : mkISBN10 "5".toList with
      | ok r =>
        have hok : exceptOk (mkISBN10 "5".toList) = false := by rfl
        rw [h2] at hok
        exact absurd hok (by simp [exceptOk])
      | error e2 =>
        cases h3 : mkISMN "5".toList with
        | ok r =>
          have hok : exceptOk (mkISMN "5".toList) = false := by rfl
          rw [h3] at hok
          exact absurd hok (by simp [exceptOk])
        | error e3 =>
          cases h4 : mkEAN13 "5".toList with
          | ok r =>
            have hok : exceptOk (mkEAN13 "5".toList) = false := by rfl
            rw [h4] at hok
            exact absurd hok (by simp [exceptOk])
          | error e4 =>
            exact (c4_dispatcher_priority "5".toList (by decide)).2.2.2.2.2
              e1 e2 e3 e4 h1 h2 h3 h4

/-! ## Transport of `parse` along uppercasing and wildcard substitution -/

/-- The character transformation `ProductCode.__init__` applies to build
`self.s`: uppercase, then replace the wildcard by the resolved digit
character `ch` (composing `substStar (upperStr s) ch = s.map (tSub ch)`). -/
def tSub (ch : Char) (c : Char) : Char :=
  if c.toUpper = '*' then ch else c.toUpper

/-- The corresponding transformation of map values: the wildcard becomes
the resolved digit, everything else is unchanged. -/
def cvSub (v : Int) : CVal → CVal
  | .wild => .digit v
  | .digit n => .digit n
  | .sep => .sep

/-- A character map is stable under `tSub ch` for resolved value `v`:
transformed characters stay in the map with transformed values, and the
transformed characters are fixed by uppercasing. -/
def stableMap (m : CharMap) (ch : Char) (v : Int) : Prop :=
  ∀ c cv, m c = some cv →
    m (tSub ch c) = some (cvSub v cv) ∧ (tSub ch c).toUpper = tSub ch c

theorem substStar_upperStr_eq_map (s : List Char) (ch : Char) :
    substStar (upperStr s) ch = s.map (tSub ch) := by
  unfold substStar upperStr tSub
  rw [List.map_map]
  rfl

/-- The digit character for a resolved value 0..9. -/
theorem digitChar_eval {v : Nat} (hv : v < 10) :
    (Char.ofNat (48 + v)).toUpper = Char.ofNat (48 + v)
    ∧ Char.ofNat (48 + v) ≠ '*'
    ∧ baseMap (Char.ofNat (48 + v)) = some (.digit (Int.ofNat v)) := by
  interval_cases v <;> exact ⟨rfl, by decide, rfl⟩

theorem tSub_of_baseMap {c : Char} {cv : CVal} (h : baseMap c = some cv)
    (ch : Char) : tSub ch c = c := by
  obtain ⟨hup, hstar⟩ := baseMap_char_id h
  unfold tSub
  rw [hup, if_neg hstar]

theorem stable_baseMap {v : Nat} (hv : v < 10) :
    stableMap baseMap (Char.ofNat (48 + v)) (Int.ofNat v) := by
  intro c cv h
  rw [tSub_of_baseMap h]
  obtain ⟨n, rfl⟩ := baseMap_some_digit h
  exact ⟨by simpa [cvSub] using h, (baseMap_char_id h).1⟩

theorem tSub_star (ch : Char) : tSub ch '*' = ch := by
  unfold tSub
  rw [show ('*' : Char).toUpper = '*' from rfl, if_pos rfl]

theorem tSub_fixed {c : Char} (h1 : c.toUpper = c) (h2 : c ≠ '*')
    (ch : Char) : tSub ch c = c := by
  unfold tSub
  rw [h1, if_neg h2]

theorem stable_upcFirst {v : Nat} (hv : v < 10) :
    stableMap upcFirstMap (Char.ofNat (48 + v)) (Int.ofNat v) := by
  intro c cv h
  unfold upcFirstMap at h ⊢
  by_cases hc : c = '*'
  · subst hc
    obtain rfl : CVal.wild = cv := by simpa using h
    obtain ⟨hup, hstar, hbase⟩ := digitChar_eval hv
    rw [tSub_star]
    rw [if_neg hstar]
    exact ⟨by simpa [cvSub] using hbase, hup⟩
  · rw [if_neg hc] at h
    rw [tSub_of_baseMap h]
    rw [if_neg hc]
    obtain ⟨n, rfl⟩ := baseMap_some_digit h
    exact ⟨by simpa [cvSub] using h, (baseMap_char_id h).1⟩

theorem stable_upcLast {v : Nat} (hv : v < 10) :
    stableMap upcLastMap (Char.ofNat (48 + v)) (Int.ofNat v) := stable_upcFirst hv

theorem stable_upcOther {v : Nat} (hv : v < 10) :
    stableMap upcOtherMap (Char.ofNat (48 + v)) (Int.ofNat v) := by
  intro c cv h
  unfold upcOtherMap at h ⊢
  by_cases hc : c = '*'
  · subst hc
    obtain rfl : CVal.wild = cv := by simpa using h
    obtain ⟨hup, hstar, hbase⟩ := digitChar_eval hv
    rw [tSub_star]
    rw [if_neg hstar]
    have hdash : Char.ofNat (48 + v) ≠ '-' := by
      interval_cases v <;> decide
    rw [if_neg hdash]
    exact ⟨by simpa [cvSub] using hbase, hup⟩
  · rw [if_neg hc] at h
    by_cases hd : c = '-'
    · subst hd
      obtain rfl : CVal.sep = cv := by simpa using h
      have ht : tSub (Char.ofNat (48 + v)) '-' = '-' :=
        tSub_fixed (by decide) (by decide) _
      rw [ht, if_neg (by decide), if_pos rfl]
      exact ⟨rfl, by decide⟩
    · rw [if_neg hd] at h
      rw [tSub_of_baseMap h]
      rw [if_neg hc, if_neg hd]
      obtain ⟨n, rfl⟩ := baseMap_some_digit h
      exact ⟨by simpa [cvSub] using h, (baseMap_char_id h).1⟩

theorem stable_isbn10Last {v : Nat} (hv : v < 10) :
    stableMap isbn10LastMap (Char.ofNat (48 + v)) (Int.ofNat v) := by
  intro c cv h
  unfold isbn10LastMap at h ⊢
  by_cases hc : c = '*'
  · subst hc
    obtain rfl : CVal.wild = cv := by simpa using h
    obtain ⟨hup, hstar, hbase⟩ := digitChar_eval hv
    rw [tSub_star]
    rw [if_neg hstar]
    have hX : Char.ofNat (48 + v) ≠ 'X' := by interval_cases v <;> decide
    have hx : Char.ofNat (48 + v) ≠ 'x' := by interval_cases v <;> decide
    rw [if_neg hX, if_neg hx]
    exact ⟨by simpa [cvSub] using hbase, hup⟩
  · rw [if_neg hc] at h
    by_cases hX : c = 'X'
    · subst hX
      obtain rfl : CVal.digit 10 = cv := by simpa using h
      have ht : tSub (Char.ofNat (48 + v)) 'X' = 'X' :=
        tSub_fixed (by decide) (by decide) _
      rw [ht, if_neg (by decide), if_pos rfl]
      exact ⟨rfl, by decide⟩
    · rw [if_neg hX] at h
      by_cases hx : c = 'x'
      · subst hx
        obtain rfl : CVal.digit 10 = cv := by simpa using h
        have ht : tSub (Char.ofNat (48 + v)) 'x' = 'X' := by
          unfold tSub
          rw [show Char.toUpper 'x' = 'X' from by decide, if_neg (by decide)]
        rw [ht, if_neg (by decide), if_pos rfl]
        exact ⟨rfl, by decide⟩
      · rw [if_neg hx] at h
        rw [tSub_of_baseMap h]
        rw [if_neg hc, if_neg hX, if_neg hx]
        obtain ⟨n, rfl⟩ := baseMap_some_digit h
        exact ⟨by simpa [cvSub] using h, (baseMap_char_id h).1⟩

theorem stable_ismnFirst {v : Nat} (hv : v < 10) :
    stableMap ismnFirstMap (Char.ofNat (48 + v)) (Int.ofNat v) := by
  intro c cv h
  unfold ismnFirstMap at h ⊢
  by_cases hc : c = 'M'
  · subst hc
    obtain rfl : CVal.digit 3 = cv := by simpa using h
    have ht : tSub (Char.ofNat (48 + v)) 'M' = 'M' :=
      tSub_fixed (by decide) (by decide) _
    rw [ht, if_pos rfl]
    exact ⟨rfl, by decide⟩
  · rw [if_neg hc] at h
    exact absurd h (by simp)

theorem stable_ismnOther {v : Nat} (hv : v < 10) :
    stableMap ismnOtherMap (Char.ofNat (48 + v)) (Int.ofNat v) := by
  intro c cv h
  unfold ismnOtherMap at h ⊢
  by_cases hc : c = '*'
  · subst hc
    obtain rfl : CVal.wild = cv := by simpa using h
    obtain ⟨hup, hstar, hbase⟩ := digitChar_eval hv
    rw [tSub_star]
    rw [if_neg hstar]
    have hdash : Char.ofNat (48 + v) ≠ '-' := by interval_cases v <;> decide
    have hsp : Char.ofNat (48 + v) ≠ ' ' := by interval_cases v <;> decide
    rw [if_neg hdash, if_neg hsp]
    exact ⟨by simpa [cvSub] using hbase, hup⟩
  · rw [if_neg hc] at h
    by_cases hd : c = '-'
    · subst hd
      obtain rfl : CVal.sep = cv := by simpa using h
      have ht : tSub (Char.ofNat (48 + v)) '-' = '-' :=
        tSub_fixed (by decide) (by decide) _
      rw [ht, if_neg (by decide), if_pos rfl]
      exact ⟨rfl, by decide⟩
    · rw [if_neg hd] at h
      by_cases hs : c = ' '
      · subst hs
        obtain rfl : CVal.sep = cv := by simpa using h
        have ht : tSub (Char.ofNat (48 + v)) ' ' = ' ' :=
          tSub_fixed (by decide) (by decide) _
        rw [ht, if_neg (by decide), if_neg (by decide), if_pos rfl]
        exact ⟨rfl, by decide⟩
      · rw [if_neg hs] at h
        rw [tSub_of_baseMap h]
        rw [if_neg hc, if_neg hd, if_neg hs]
        obtain ⟨n, rfl⟩ := baseMap_some_digit h
        exact ⟨by simpa [cvSub] using h, (baseMap_char_id h).1⟩

theorem map_dropLast_eq {α β : Type} (f : α → β) (l : List α) :
    (l.map f).dropLast = l.dropLast.map f := by
  rw [List.dropLast_eq_take, List.dropLast_eq_take, List.map_take, List.length_map]

theorem getLastD_map_eq {α β : Type} (f : α → β) (l : List α) (d : α) :
    (l.map f).getLastD (f d) = f (l.getLastD d) := by
  induction l generalizing d with
  | nil => rfl
  | cons a t ih => simp only [List.map_cons, List.getLastD_cons, ih]

theorem filterMap_cvSub (v : Int) (l : List CVal) :
    ((l.map (cvSub v)).filterMap cvalSlot)
      = (l.filterMap cvalSlot).map (fun o => some (o.getD v)) := by
  induction l with
  | nil => rfl
  | cons x t ih => cases x <;> simp [cvSub, cvalSlot, ih]

theorem lookAll_stable {m : CharMap} {ch : Char} {v : Int}
    (hst : stableMap m ch v) :
    ∀ {cs : List Char} {vs : List CVal}, lookAll m cs = .ok vs →
      lookAll m (cs.map (tSub ch)) = .ok (vs.map (cvSub v)) := by
  intro cs
  induction cs with
  | nil =>
    intro vs h
    obtain rfl : vs = [] := by simpa [lookAll] using h.symm
    rfl
  | cons c t ih =>
    intro vs h
    unfold lookAll at h
    cases hc : look m c with
    | error e => rw [hc] at h; exact absurd h (by simp)
    | ok w =>
      rw [hc] at h
      dsimp only at h
      cases ht : lookAll m t with
      | error e => rw [ht] at h; exact absurd h (by simp)
      | ok ws =>
        rw [ht] at h
        dsimp only at h
        obtain rfl : vs = w :: ws := by simpa using h.symm
        have hmem := look_ok_eq hc
        obtain ⟨hmap, _⟩ := hst c w hmem
        simp only [List.map_cons]
        unfold lookAll look
        rw [hmap]
        dsimp only
        rw [ih ht]

theorem parse_stable {fm lm om : CharMap} {ch : Char} {v : Int}
    (hf : stableMap fm ch v) (hl : stableMap lm ch v) (ho : stableMap om ch v)
    {s : List Char} {ds : List (Option Int)}
    (h : parse fm lm om s = .ok ds) :
    parse fm lm om (s.map (tSub ch)) = .ok (ds.map (fun o => some (o.getD v))) := by
  cases s with
  | nil => exact absurd h (by simp [parse])
  | cons c0 rest =>
    obtain ⟨v0, vs, vl, h0, hmid, hlst, rfl⟩ := parse_ok_struct h
    obtain ⟨h0m, _⟩ := hf c0 v0 (look_ok_eq h0)
    have hmidm := lookAll_stable ho hmid
    obtain ⟨hlm, _⟩ := hl (rest.getLastD c0) vl (look_ok_eq hlst)
    simp only [List.map_cons]
    unfold parse
    dsimp only
    have hlook0 : look fm (tSub ch c0) = .ok (cvSub v v0) := by
      unfold look; rw [h0m]
    rw [hlook0]
    dsimp only
    rw [map_dropLast_eq, hmidm]
    dsimp only
    rw [getLastD_map_eq]
    have hlookl : look lm (tSub ch (rest.getLastD c0)) = .ok (cvSub v vl) := by
      unfold look; rw [hlm]
    rw [hlookl]
    dsimp only
    rw [show cvSub v v0 :: (vs.map (cvSub v) ++ [cvSub v vl])
          = (v0 :: (vs ++ [vl])).map (cvSub v) from by simp]
    rw [filterMap_cvSub]

theorem nWild_map_getD (ds : List (Option Int)) (v : Int) :
    nWild (ds.map (fun o => some (o.getD v))) = 0 := by
  simp [nWild, List.countP_map, Function.comp]

theorem setWild_map_getD (ds : List (Option Int)) (v w : Int) :
    setWild (ds.map (fun o => some (o.getD v))) w = setWild ds v := by
  simp [setWild, List.map_map, Function.comp]

theorem mem_cons_structure {α : Type} {c c0 : α} {rest : List α}
    (h : c ∈ c0 :: rest) :
    c = c0 ∨ c ∈ rest.dropLast ∨ c = rest.getLastD c0 := by
  induction rest generalizing c0 with
  | nil => left; simpa using h
  | cons b t ih =>
    rcases List.mem_cons.mp h with rfl | hr
    · left; rfl
    · rcases ih hr with rfl | hd | hl
      · cases t with
        | nil => right; right; simp [List.getLastD_cons]
        | cons x y => right; left; simp
      · cases t with
        | nil => exact absurd hd (by simp)
        | cons x y =>
          right; left
          simpa using Or.inr hd
      · right; right; rw [List.getLastD_cons]; exact hl

/-- Re-running `ProductCode.__init__` on the substituted normalized string,
after a successful construction that resolved one wildcard to `i`, succeeds
again with the same digits and normalized string, provided all three
character maps are stable under the substitution. -/
theorem pcInit_rerun {cfg : PCConfig} {s : List Char} {pc : PC} {i : Nat}
    {ds : List (Option Int)}
    (hst : ∀ v : Nat, v < 10 →
        stableMap cfg.fm (Char.ofNat (48 + v)) (Int.ofNat v)
        ∧ stableMap cfg.lm (Char.ofNat (48 + v)) (Int.ofNat v)
        ∧ stableMap cfg.om (Char.ofNat (48 + v)) (Int.ofNat v))
    (hpc : pcInit cfg s = .ok pc)
    (hparse : parse cfg.fm cfg.lm cfg.om s = .ok ds)
    (hires : resolveChecksum cfg ds = .ok (some (Int.ofNat i), pc.digits)) :
    pc.s = s.map (tSub (Char.ofNat (48 + i)))
    ∧ pcInit cfg pc.s = .ok ⟨pc.s, pc.s, pc.digits, pc.checkDigit⟩ := by
  obtain ⟨ds0, iOpt, hparse0, hres0, hnorm, hrc, hlast, hgiven⟩ := pcInit_ok_inv hpc
  rw [hparse] at hparse0
  obtain rfl : ds = ds0 := by simpa using hparse0
  rw [hires] at hres0
  have hiopt : iOpt = some (Int.ofNat i) := by
    have := hres0
    simp only [Except.ok.injEq, Prod.mk.injEq] at this
    exact this.1.symm
  subst hiopt
  obtain ⟨hlen, hcases⟩ := resolveChecksum_ok_inv hires
  have hkey : i < 10 ∧ pc.digits = setWild ds (Int.ofNat i)
      ∧ wsum pc.digits cfg.weights % cfg.magic = 0 := by
    rcases hcases with ⟨-, hnone, -, -⟩ | ⟨-, j, hfind, hsome, hdd⟩ | ⟨-, hnone, -, -⟩
    · exact absurd hnone (by simp)
    · have hij : i = j := by
        have := hsome
        simp only [Option.some.injEq, Int.ofNat.injEq] at this
        exact this
      subst hij
      have hj10 : i < 10 := by
        have := List.mem_of_find?_eq_some hfind
        simpa using this
      have hchk : wsum (setWild ds (Int.ofNat i)) cfg.weights % cfg.magic = 0 := by
        have := List.find?_some hfind
        simpa using this
      exact ⟨hj10, hdd, hdd ▸ hchk⟩
    · exact absurd hnone (by simp)
  obtain ⟨hi10, hdd, hchk⟩ := hkey
  obtain ⟨hstf, hstl, hsto⟩ := hst i hi10
  have hint : int2char cfg (Int.ofNat i) = .ok (Char.ofNat (48 + i)) := by
    have hcast : Int.ofNat i = (i : Int) := rfl
    unfold int2char
    rw [if_neg, if_pos]
    · simp
    · rw [hcast]
      constructor <;> omega
    · intro hco
      have := hco.2
      rw [hcast] at this
      omega
  have hs : pc.s = s.map (tSub (Char.ofNat (48 + i))) := by
    unfold normString at hnorm
    dsimp only at hnorm
    rw [hint] at hnorm
    dsimp only at hnorm
    have := (by simpa using hnorm : substStar (upperStr s) (Char.ofNat (48 + i)) = pc.s)
    rw [← this, substStar_upperStr_eq_map]
  have hparse2 : parse cfg.fm cfg.lm cfg.om pc.s
      = .ok (ds.map (fun o => some (o.getD (Int.ofNat i)))) := by
    rw [hs]
    exact parse_stable hstf hstl hsto hparse
  have hlen2 : pc.digits.length = cfg.weights.length := by
    rw [hdd, setWild_length]
    exact hlen
  have hres2 : resolveChecksum cfg (ds.map (fun o => some (o.getD (Int.ofNat i))))
      = .ok (none, pc.digits) := by
    unfold resolveChecksum
    rw [if_pos (nWild_map_getD ds _)]
    rw [setWild_map_getD, ← hdd]
    have hrem : remainder cfg pc.digits
        = .ok (wsum pc.digits cfg.weights % cfg.magic) := by
      unfold remainder
      rw [if_pos hlen2]
    rw [hrem]
    dsimp only
    rw [if_pos hchk]
  have hupc : ∀ c ∈ s, (tSub (Char.ofNat (48 + i)) c).toUpper
      = tSub (Char.ofNat (48 + i)) c := by
    cases s with
    | nil => intro c hc; exact absurd hc (by simp)
    | cons c0 rest =>
      obtain ⟨v0, vs, vl, h0, hmid, hlst2, -⟩ := parse_ok_struct hparse
      intro c hc
      rcases mem_cons_structure hc with rfl | hd | rfl
      · exact (hstf c v0 (look_ok_eq h0)).2
      · obtain ⟨w, hw⟩ := lookAll_ok_dom hmid c hd
        exact (hsto c w hw).2
      · exact (hstl _ vl (look_ok_eq hlst2)).2
  have hupper : upperStr pc.s = pc.s := by
    rw [hs]
    unfold upperStr
    rw [List.map_map]
    exact List.map_congr_left (fun c hc => hupc c hc)
  refine ⟨hs, ?_⟩
  unfold pcInit
  rw [hparse2]
  dsimp only
  rw [hres2]
  dsimp only [normString]
  rw [hupper]
  rw [hrc]
  dsimp only
  rw [hlast]

/-! ## Transport of `parse` along uppercasing alone (the no-resolution path) -/

/-- A character map is stable under uppercasing: uppercased domain characters
stay in the map with the same value. -/
def stableU (m : CharMap) : Prop :=
  ∀ c cv, m c = some cv → m c.toUpper = some cv

theorem upper_stable_base : stableU baseMap := by
  intro c cv h
  rw [(baseMap_char_id h).1]
  exact h

theorem upper_stable_upcFirst : stableU upcFirstMap := by
  intro c cv h
  unfold upcFirstMap at h ⊢
  by_cases hc : c = '*'
  · subst hc
    simpa using h
  · rw [if_neg hc] at h
    rw [(baseMap_char_id h).1, if_neg hc]
    exact h

theorem upper_stable_upcLast : stableU upcLastMap := upper_stable_upcFirst

theorem upper_stable_upcOther : stableU upcOtherMap := by
  intro c cv h
  unfold upcOtherMap at h ⊢
  by_cases hc : c = '*'
  · subst hc
    simpa using h
  · rw [if_neg hc] at h
    by_cases hd : c = '-'
    · subst hd
      simpa using h
    · rw [if_neg hd] at h
      rw [(baseMap_char_id h).1, if_neg hc, if_neg hd]
      exact h

theorem upper_stable_isbn10Last : stableU isbn10LastMap := by
  intro c cv h
  unfold isbn10LastMap at h ⊢
  by_cases hc : c = '*'
  · subst hc
    simpa using h
  · rw [if_neg hc] at h
    by_cases hX : c = 'X'
    · subst hX
      simpa using h
    · rw [if_neg hX] at h
      by_cases hx : c = 'x'
      · subst hx
        obtain rfl : CVal.digit 10 = cv := by simpa using h
        rfl
      · rw [if_neg hx] at h
        rw [(baseMap_char_id h).1, if_neg hc, if_neg hX, if_neg hx]
        exact h

theorem upper_stable_ismnFirst : stableU ismnFirstMap := by
  intro c cv h
  unfold ismnFirstMap at h ⊢
  by_cases hc : c = 'M'
  · subst hc
    simpa using h
  · rw [if_neg hc] at h
    exact absurd h (by simp)

theorem upper_stable_ismnOther : stableU ismnOtherMap := by
  intro c cv h
  unfold ismnOtherMap at h ⊢
  by_cases hc : c = '*'
  · subst hc
    simpa using h
  · rw [if_neg hc] at h
    by_cases hd : c = '-'
    · subst hd
      simpa using h
    · rw [if_neg hd] at h
      by_cases hs : c = ' '
      · subst hs
        simpa using h
      · rw [if_neg hs] at h
        rw [(baseMap_char_id h).1, if_neg hc, if_neg hd, if_neg hs]
        exact h

theorem lookAll_stableU {m : CharMap} (hst : stableU m) :
    ∀ {cs : List Char} {vs : List CVal}, lookAll m cs = .ok vs →
      lookAll m (cs.map Char.toUpper) = .ok vs := by
  intro cs
  induction cs with
  | nil =>
    intro vs h
    obtain rfl : vs = [] := by simpa [lookAll] using h.symm
    rfl
  | cons c t ih =>
    intro vs h
    unfold lookAll at h
    cases hc : look m c with
    | error e => rw [hc] at h; exact absurd h (by simp)
    | ok w =>
      rw [hc] at h
      dsimp only at h
      cases ht : lookAll m t with
      | error e => rw [ht] at h; exact absurd h (by simp)
      | ok ws =>
        rw [ht] at h
        dsimp only at h
        obtain rfl : vs = w :: ws := by simpa using h.symm
        have hmap := hst c w (look_ok_eq hc)
        simp only [List.map_cons]
        unfold lookAll look
        rw [hmap]
        dsimp only
        rw [ih ht]

theorem parse_stableU {fm lm om : CharMap}
    (hf : stableU fm) (hl : stableU lm) (ho : stableU om)
    {s : List Char} {ds : List (Option Int)}
    (h : parse fm lm om s = .ok ds) :
    parse fm lm om (upperStr s) = .ok ds := by
  cases s with
  | nil => exact absurd h (by simp [parse])
  | cons c0 rest =>
    obtain ⟨v0, vs, vl, h0, hmid, hlst, rfl⟩ := parse_ok_struct h
    have h0m := hf c0 v0 (look_ok_eq h0)
    have hmidm := lookAll_stableU ho hmid
    have hlm := hl (rest.getLastD c0) vl (look_ok_eq hlst)
    unfold upperStr
    simp only [List.map_cons]
    unfold parse
    dsimp only
    have hlook0 : look fm c0.toUpper = .ok v0 := by
      unfold look; rw [h0m]
    rw [hlook0]
    dsimp only
    rw [map_dropLast_eq, hmidm]
    dsimp only
    rw [getLastD_map_eq]
    have hlookl : look lm (rest.getLastD c0).toUpper = .ok vl := by
      unfold look; rw [hlm]
    rw [hlookl]

/-- Every successful construction leaves a normalized string that the same
maps re-parse, and the stored digits are the re-parse's slots with any
remaining wildcard set to 9 (the fall-through's last tried value). -/
theorem pcInit_reparse {cfg : PCConfig} {s : List Char} {pc : PC}
    (hst : ∀ v : Nat, v < 10 →
        stableMap cfg.fm (Char.ofNat (48 + v)) (Int.ofNat v)
        ∧ stableMap cfg.lm (Char.ofNat (48 + v)) (Int.ofNat v)
        ∧ stableMap cfg.om (Char.ofNat (48 + v)) (Int.ofNat v))
    (hfU : stableU cfg.fm) (hlU : stableU cfg.lm) (hoU : stableU cfg.om)
    (hpc : pcInit cfg s = .ok pc) :
    ∃ es, parse cfg.fm cfg.lm cfg.om pc.s = .ok es
      ∧ pc.digits = setWild es 9
      ∧ es.length = cfg.weights.length := by
  obtain ⟨ds, iOpt, hparse, hres, hnorm, hrc, hlast, hgiven⟩ := pcInit_ok_inv hpc
  obtain ⟨hlen, hcases⟩ := resolveChecksum_ok_inv hres
  rcases hcases with ⟨h0, hio, hdd, hchk⟩ | ⟨h1, j, hfind, hio, hdd⟩ | ⟨h1, hio, hdd, hfind⟩
  · subst hio
    have hpcs : pc.s = upperStr s := by
      unfold normString at hnorm
      dsimp only at hnorm
      simpa using hnorm.symm
    refine ⟨ds, by rw [hpcs]; exact parse_stableU hfU hlU hoU hparse, ?_, hlen⟩
    rw [hdd]
    exact (setWild_nowild h0 9).symm
  · subst hio
    have hj10 : j < 10 := by
      have := List.mem_of_find?_eq_some hfind
      simpa using this
    have hrr := pcInit_rerun hst hpc hparse hres
    refine ⟨ds.map (fun o => some (o.getD (Int.ofNat j))), ?_, ?_, by simpa using hlen⟩
    · rw [hrr.1]
      exact parse_stable (hst j hj10).1 (hst j hj10).2.1 (hst j hj10).2.2 hparse
    · rw [setWild_map_getD, hdd]
  · subst hio
    have hpcs : pc.s = upperStr s := by
      unfold normString at hnorm
      dsimp only at hnorm
      simpa using hnorm.symm
    exact ⟨ds, by rw [hpcs]; exact parse_stableU hfU hlU hoU hparse, hdd, hlen⟩

/-! ## Helpers for the `as13` digit-position analysis -/

theorem nWild_ne_zero_of_mem {ds : List (Option Int)} (h : none ∈ ds) :
    nWild ds ≠ 0 := by
  unfold nWild
  have : 0 < ds.countP (fun o => o.isNone) :=
    List.countP_pos_iff.mpr ⟨none, h, rfl⟩
  omega

theorem nWild_append (a b : List (Option Int)) :
    nWild (a ++ b) = nWild a + nWild b := List.countP_append _ _ _

/-- When at least one slot is unresolved, a successful `resolveChecksum`
over everywhere-solvable weights must have come from the one-wildcard
branch finding a candidate: the fall-through cannot happen and two or more
wildcards are an error. -/
theorem resolve_no_fallthrough {cfg : PCConfig} {ds : List (Option Int)}
    {iOpt : Option Int} {dd : List Int}
    (h : resolveChecksum cfg ds = .ok (iOpt, dd))
    (hw : nWild ds ≠ 0)
    (hmagic : 0 < cfg.magic)
    (hsolv : ∀ w ∈ cfg.weights, wSolvable w cfg.magic) :
    ∃ i : Nat, i < 10 ∧ iOpt = some (Int.ofNat i)
      ∧ dd = setWild ds (Int.ofNat i)
      ∧ nWild ds = 1
      ∧ wsum (setWild ds (Int.ofNat i)) cfg.weights % cfg.magic = 0 := by
  obtain ⟨hlen, hc⟩ := resolveChecksum_ok_inv h
  rcases hc with ⟨h0, _, _, _⟩ | ⟨h1, i, hfind, hio, hdd⟩ | ⟨h1, _, _, hfind⟩
  · exact absurd h0 hw
  · refine ⟨i, ?_, hio, hdd, h1, ?_⟩
    · have := List.mem_of_find?_eq_some hfind
      simpa using this
    · have := List.find?_some hfind
      simpa using this
  · exfalso
    obtain ⟨wk, hwk, hlin⟩ := wsum_setWild_linear h1 hlen
    set S := wsum (setWild ds 0) cfg.weights with hS
    have ht0 : 0 ≤ S % cfg.magic := Int.emod_nonneg S (by omega)
    have ht1 : S % cfg.magic < cfg.magic := Int.emod_lt_of_pos S hmagic
    obtain ⟨t, htval⟩ : ∃ t : Nat, (t : Int) = S % cfg.magic :=
      ⟨(S % cfg.magic).toNat, Int.toNat_of_nonneg ht0⟩
    have htlt : t < cfg.magic.toNat := by omega
    obtain ⟨v, hvmem, hveq⟩ := hsolv wk hwk t htlt
    have hnone := List.find?_eq_none.mp hfind v hvmem
    apply hnone
    have : wsum (setWild ds (Int.ofNat v)) cfg.weights % cfg.magic = 0 := by
      rw [hlin (Int.ofNat v)]
      have e1 : (S + wk * (Int.ofNat v)) % cfg.magic
          = ((t : Int) + wk * (Int.ofNat v)) % cfg.magic := by
        conv_rhs => rw [htval]
        conv_lhs => rw [Int.add_emod S]
        conv_rhs => rw [Int.add_emod (S % cfg.magic),
          Int.emod_emod_of_dvd S dvd_rfl]
      rw [e1]
      exact hveq
    simpa using this

theorem ean13_solvable : ∀ w ∈ (ean13Cfg "ISBN13").weights,
    wSolvable w (ean13Cfg "ISBN13").magic := by
  intro w hw
  unfold wSolvable
  fin_cases hw <;> decide

theorem upcFirst_sub_upcOther {c : Char} {v : CVal}
    (h : upcFirstMap c = some v) : upcOtherMap c = some v := by
  unfold upcFirstMap at h
  unfold upcOtherMap
  by_cases hc : c = '*'
  · subst hc
    simpa using h
  · rw [if_neg hc] at h
    have hd : c ≠ '-' := by
      intro hd
      subst hd
      rw [show baseMap '-' = none from rfl] at h
      exact absurd h (by simp)
    rw [if_neg hc, if_neg hd]
    exact h

theorem isbn10Last_not_sep {c : Char} {v : CVal}
    (h : isbn10LastMap c = some v) : v ≠ .sep := by
  unfold isbn10LastMap at h
  by_cases hc : c = '*'
  · subst hc
    obtain rfl : CVal.wild = v := by simpa using h
    simp
  · rw [if_neg hc] at h
    by_cases hX : c = 'X'
    · subst hX
      obtain rfl : CVal.digit 10 = v := by simpa using h
      simp
    · rw [if_neg hX] at h
      by_cases hx : c = 'x'
      · subst hx
        obtain rfl : CVal.digit 10 = v := by simpa using h
        simp
      · rw [if_neg hx] at h
        obtain ⟨n, rfl⟩ := baseMap_some_digit h
        simp

theorem lookAll_append_ok {m : CharMap} {a b : List Char} {va vb : List CVal}
    (ha : lookAll m a = .ok va) (hb : lookAll m b = .ok vb) :
    lookAll m (a ++ b) = .ok (va ++ vb) := by
  induction a generalizing va with
  | nil =>
    obtain rfl : va = [] := by simpa [lookAll] using ha.symm
    simpa using hb
  | cons c t ih =>
    unfold lookAll at ha
    cases hc : look m c with
    | error e => rw [hc] at ha; exact absurd ha (by simp)
    | ok w =>
      rw [hc] at ha
      dsimp only at ha
      cases ht : lookAll m t with
      | error e => rw [ht] at ha; exact absurd ha (by simp)
      | ok ws =>
        rw [ht] at ha
        dsimp only at ha
        obtain rfl : va = w :: ws := by simpa using ha.symm
        simp only [List.cons_append]
        unfold lookAll
        rw [hc]
        dsimp only
        rw [ih ht]

/-- C5 (amended): for every successfully constructed ISBN-10, `as13()`
re-runs the full ISBN-13 pipeline on `"978-" + <normalized string without
its check character> + "*"`; the resulting 13 digits are 9, 7, 8, then at
positions 3-11 exactly the source ISBN-10 digits 0-8, then a freshly
computed final check digit satisfying the EAN-13 weights mod 10, and the
normalized string begins with `978-`. -/
theorem c5_as13_digit_positions (s : List Char) (r : ISBN10Code) (e : EANCode)
    (hok : mkISBN10 s = .ok r) (h13 : isbn10as13 r = .ok e) :
    e.pc.digits.length = 13
    ∧ e.pc.digits.take 3 = [9, 7, 8]
    ∧ (e.pc.digits.drop 3).take 9 = r.pc.digits.take 9
    ∧ wsum e.pc.digits ean13Weights % 10 = 0
    ∧ e.pc.s.take 4 = "978-".toList := by
  obtain ⟨pc, e13, hpc10, h13o, rfl⟩ := mkISBN10_ok_inv hok
  have h13' : mkISBN13 (isbn10as13str pc.s) = .ok e := h13
  have pkg10 : ∀ v : Nat, v < 10 →
      stableMap isbn10Cfg.fm (Char.ofNat (48 + v)) (Int.ofNat v)
      ∧ stableMap isbn10Cfg.lm (Char.ofNat (48 + v)) (Int.ofNat v)
      ∧ stableMap isbn10Cfg.om (Char.ofNat (48 + v)) (Int.ofNat v) :=
    fun v hv => ⟨stable_upcFirst hv, stable_isbn10Last hv, stable_upcOther hv⟩
  obtain ⟨es, hrep, hdig10, heslen⟩ := pcInit_reparse pkg10
    upper_stable_upcFirst upper_stable_isbn10Last upper_stable_upcOther hpc10
  have heslen10 : es.length = 10 := by rw [heslen]; rfl
  have hean := mkISBN13_ok_ean13 h13'
  obtain ⟨d0, hpc13, hhead, -, -, -, -⟩ := ean13Init_ok_inv hean
  cases hX : pc.s with
  | nil =>
    rw [hX] at hrep
    exact absurd hrep (by simp [parse])
  | cons x0 xr =>
    rw [hX] at hrep
    have hlenle := parse_length_le hrep
    cases xr with
    | nil =>
      rw [heslen10] at hlenle
      simp at hlenle
    | cons y yr =>
      obtain ⟨u0, us, ul, hu0, hus, hul, hes⟩ := parse_ok_struct hrep
      have hu0' : upcOtherMap x0 = some u0 := upcFirst_sub_upcOther (look_ok_eq hu0)
      have hus' : lookAll upcOtherMap (y :: yr).dropLast = .ok us := hus
      have hmidall : lookAll upcOtherMap (x0 :: (y :: yr).dropLast)
          = .ok (u0 :: us) := by
        unfold lookAll look
        rw [hu0']
        dsimp only
        rw [hus']
      have hinput : isbn10as13str (x0 :: y :: yr)
          = '9' :: ('7' :: '8' :: '-' :: ((x0 :: (y :: yr).dropLast) ++ ['*'])) := rfl
      rw [hX, hinput] at hpc13
      obtain ⟨ds13, iOpt13, hp13, hres13, hnorm13, hrc13, hlast13, hgiv13⟩ :=
        pcInit_ok_inv hpc13
      obtain ⟨w0, ws, wl, hw0, hws, hwl, hes13⟩ := parse_ok_struct hp13
      have hw0' : w0 = CVal.digit 9 := by
        have := look_ok_eq hw0
        rw [show ((ean13Cfg "ISBN13").fm '9') = some (CVal.digit 9) from rfl] at this
        simpa using this.symm
      have hrest2 : ('7' :: '8' :: '-' :: ((x0 :: (y :: yr).dropLast) ++ ['*']))
          = (('7' :: '8' :: '-' :: (x0 :: (y :: yr).dropLast)) ++ ['*']) := by simp
      have hdl : ('7' :: '8' :: '-' :: ((x0 :: (y :: yr).dropLast) ++ ['*'])).dropLast
          = '7' :: '8' :: '-' :: (x0 :: (y :: yr).dropLast) := by
        rw [hrest2, List.dropLast_concat]
      have hgl : ('7' :: '8' :: '-' :: ((x0 :: (y :: yr).dropLast) ++ ['*'])).getLastD '9'
          = '*' := by
        rw [hrest2, List.getLastD_concat]
      have hwl' : wl = CVal.wild := by
        have := look_ok_eq hwl
        rw [hgl] at this
        rw [show ((ean13Cfg "ISBN13").lm '*') = some CVal.wild from rfl] at this
        simpa using this.symm
      have hwsval : lookAll upcOtherMap ('7' :: '8' :: '-' :: (x0 :: (y :: yr).dropLast))
          = .ok ([CVal.digit 7, CVal.digit 8, CVal.sep] ++ (u0 :: us)) := by
        have h78 : lookAll upcOtherMap ['7', '8', '-']
            = .ok [CVal.digit 7, CVal.digit 8, CVal.sep] := rfl
        exact lookAll_append_ok h78 hmidall
      have hws' : ws = [CVal.digit 7, CVal.digit 8, CVal.sep] ++ (u0 :: us) := by
        rw [hdl] at hws
        have := hws.symm.trans hwsval
        simpa using this
      subst hw0' hwl' hws'
      have hds13 : ds13 = some 9 :: some 7 :: some 8
          :: ((u0 :: us).filterMap cvalSlot ++ [none]) := by
        rw [hes13]
        simp [List.filterMap_cons, List.filterMap_append, cvalSlot]
        cases u0 <;> rfl
      have hwne : nWild ds13 ≠ 0 := by
        rw [hds13]
        apply nWild_ne_zero_of_mem
        simp
      obtain ⟨i13, hi13, hio13, hdd13, hone13, hchk13⟩ :=
        resolve_no_fallthrough hres13 hwne (by decide) ean13_solvable
      have hMn : nWild ((u0 :: us).filterMap cvalSlot) = 0 := by
        rw [hds13, show (some (9:Int) :: some 7 :: some 8
            :: ((u0 :: us).filterMap cvalSlot ++ [none]))
          = [some (9:Int), some 7, some 8]
            ++ ((u0 :: us).filterMap cvalSlot ++ [none]) from rfl,
          nWild_append, nWild_append] at hone13
        have h3 : nWild [some (9:Int), some 7, some 8] = 0 := rfl
        have h1 : nWild ([none] : List (Option Int)) = 1 := rfl
        omega
      have hedig : e.pc.digits = 9 :: 7 :: 8
          :: (setWild ((u0 :: us).filterMap cvalSlot) (Int.ofNat i13)
              ++ [Int.ofNat i13]) := by
        rw [hdd13, hds13]
        simp [setWild]
      have hnsep := isbn10Last_not_sep (look_ok_eq hul)
      obtain ⟨o, ho⟩ : ∃ o, cvalSlot ul = some o := by
        cases ul with
        | digit n => exact ⟨some n, rfl⟩
        | wild => exact ⟨none, rfl⟩
        | sep => exact absurd rfl hnsep
      have hesM : es = (u0 :: us).filterMap cvalSlot ++ [o] := by
        rw [hes, show (u0 :: (us ++ [ul])) = (u0 :: us) ++ [ul] from rfl,
          List.filterMap_append]
        simp [ho]
      have hMlen : ((u0 :: us).filterMap cvalSlot).length = 9 := by
        have h10 := heslen10
        rw [hesM] at h10
        simp at h10
        omega
      have hrd9 : pc.digits.take 9 = setWild ((u0 :: us).filterMap cvalSlot) 9 := by
        rw [hdig10, hesM]
        unfold setWild
        rw [List.map_append]
        rw [show (9 : Nat)
            = (((u0 :: us).filterMap cvalSlot).map (fun o => o.getD 9)).length from
          by simp [hMlen]]
        exact List.take_left _ _
      have hmain : (e.pc.digits.drop 3).take 9 = pc.digits.take 9 := by
        rw [hedig]
        simp only [List.drop_succ_cons, List.drop_zero]
        rw [hrd9]
        rw [show (9 : Nat)
            = (setWild ((u0 :: us).filterMap cvalSlot) (Int.ofNat i13)).length from
          by simp [setWild, hMlen]]
        rw [List.take_left]
        exact (setWild_nowild hMn (Int.ofNat i13)).trans (setWild_nowild hMn 9).symm
      refine ⟨?_, ?_, hmain, ?_, ?_⟩
      · obtain ⟨hlen13, -⟩ := resolveChecksum_ok_inv hres13
        rw [hdd13, setWild_length, hlen13]
        rfl
      · rw [hedig]
        rfl
      · exact resolve_ok_checksum hres13 (by decide) ean13_solvable
      · have pkg13 : ∀ v : Nat, v < 10 →
            stableMap (ean13Cfg "ISBN13").fm (Char.ofNat (48 + v)) (Int.ofNat v)
            ∧ stableMap (ean13Cfg "ISBN13").lm (Char.ofNat (48 + v)) (Int.ofNat v)
            ∧ stableMap (ean13Cfg "ISBN13").om (Char.ofNat (48 + v)) (Int.ofNat v) :=
          fun v hv => ⟨stable_upcFirst hv, stable_upcLast hv, stable_upcOther hv⟩
        have hires13 : resolveChecksum (ean13Cfg "ISBN13") ds13
            = .ok (some (Int.ofNat i13), e.pc.digits) := by
          rw [hio13] at hres13
          exact hres13
        have hsmap := (pcInit_rerun pkg13 hpc13 hp13 hires13).1
        rw [hsmap]
        simp only [List.map_cons]
        rw [show ∀ a b c d t2, List.take 4 (a :: b :: c :: d :: t2)
            = ([a, b, c, d] : List Char) from fun a b c d t2 => rfl]
        have t9 : tSub (Char.ofNat (48 + i13)) '9' = '9' :=
          tSub_fixed (by decide) (by decide) _
        have t7 : tSub (Char.ofNat (48 + i13)) '7' = '7' :=
          tSub_fixed (by decide) (by decide) _
        have t8 : tSub (Char.ofNat (48 + i13)) '8' = '8' :=
          tSub_fixed (by decide) (by decide) _
        have td : tSub (Char.ofNat (48 + i13)) '-' = '-' :=
          tSub_fixed (by decide) (by decide) _
        rw [t9, t7, t8, td]
        rfl

/-- C5 witness: `ISBN10("0-9669553-0-7")` — its `as13()` has digits
9,7,8 then the nine source digits, and its string begins `978-`. -/
theorem c5_as13_digit_positions_witness :
    ∃ r e, mkISBN10 "0-9669553-0-7".toList = .ok r
      ∧ isbn10as13 r = .ok e
      ∧ e.pc.digits.take 3 = [9, 7, 8]
      ∧ (e.pc.digits.drop 3).take 9 = r.pc.digits.take 9
      ∧ e.pc.s.take 4 = "978-".toList := by
  cases hk : mkISBN10 "0-9669553-0-7".toList with
  | error e0 =>
    have hh : exceptOk (mkISBN10 "0-9669553-0-7".toList) = true := by rfl
    rw [hk] at hh
    exact absurd hh (by simp [exceptOk])
  | ok r =>
    have hs : r.pc.s = "0-9669553-0-7".toList := by
      have hh : (mkISBN10 "0-9669553-0-7".toList).map (fun q => q.pc.s)
          = .ok "0-9669553-0-7".toList := by rfl
      rw [hk] at hh
      simpa [Except.map] using hh
    cases h13 : isbn10as13 r with
    | error e0 =>
      have h13' : mkISBN13 (isbn10as13str "0-9669553-0-7".toList) = .error e0 := by
        unfold isbn10as13 at h13
        rw [hs] at h13
        exact h13
      have hh : exceptOk (mkISBN13 (isbn10as13str "0-9669553-0-7".toList)) = true := by
        rfl
      rw [h13'] at hh
      exact absurd hh (by simp [exceptOk])
    | ok e =>
      exact ⟨r, e, rfl, h13, (c5_as13_digit_positions _ r e hk h13).2.1,
        (c5_as13_digit_positions _ r e hk h13).2.2.1,
        (c5_as13_digit_positions _ r e hk h13).2.2.2.2⟩

/-! ## One-wildcard resolution: uniqueness and idempotence (C3) -/

/-- With one unresolved slot, weights coprime to a modulus that is at least
10 admit at most one candidate digit in 0..9. -/
theorem one_wild_unique {cfg : PCConfig} {ds : List (Option Int)} {v w : Nat}
    (hone : nWild ds = 1) (hlen : ds.length = cfg.weights.length)
    (hcop : ∀ wt ∈ cfg.weights, Int.gcd wt cfg.magic = 1)
    (hmagic : 10 ≤ cfg.magic)
    (hv : v < 10) (hw : w < 10)
    (hsv : wsum (setWild ds (Int.ofNat v)) cfg.weights % cfg.magic = 0)
    (hsw : wsum (setWild ds (Int.ofNat w)) cfg.weights % cfg.magic = 0) :
    w = v := by
  obtain ⟨wk, hwk, hlin⟩ := wsum_setWild_linear hone hlen
  rw [hlin] at hsv hsw
  set S := wsum (setWild ds 0) cfg.weights with hS
  have h1 : (S + wk * Int.ofNat v) % cfg.magic = (S + wk * Int.ofNat w) % cfg.magic := by
    rw [hsv, hsw]
  have h2 : (wk * Int.ofNat v) % cfg.magic = (wk * Int.ofNat w) % cfg.magic :=
    Int.ModEq.add_left_cancel' S h1
  have h3' := Int.ModEq.cancel_left_div_gcd
    (show (0:Int) < cfg.magic by omega) h2
  rw [Int.gcd_comm, hcop wk hwk] at h3'
  have h3 : (Int.ofNat v) % cfg.magic = (Int.ofNat w) % cfg.magic := by
    have hdiv : cfg.magic / ((1 : Nat) : Int) = cfg.magic := by
      simp
    rw [hdiv] at h3'
    exact h3'
  have hcv : Int.ofNat v = (v : Int) := rfl
  have hcw : Int.ofNat w = (w : Int) := rfl
  rw [hcv, hcw] at h3
  rw [Int.emod_eq_of_lt (by omega) (by omega),
    Int.emod_eq_of_lt (by omega) (by omega)] at h3
  omega

/-- The transformed characters of a normalized string never include the
wildcard once the substituted character is not itself the wildcard. -/
theorem tSub_ne_star {ch : Char} (hch : ch ≠ '*') (c : Char) :
    tSub ch c ≠ '*' := by
  unfold tSub
  split_ifs with h
  · exact hch
  · exact h

/-- The digit list a dispatched result carries (`self.digits`). -/
def pcodeDigits : PCode → List Int
  | .ean13C r => r.pc.digits
  | .isbn13C r => r.pc.digits
  | .ismn13C r => r.pc.digits
  | .isbn10C r => r.pc.digits
  | .ismnC r => r.pc.digits
  | .upc5C r => r.digits

/-- The normalized string a dispatched result carries (`self.s`). -/
def pcodeS : PCode → List Char
  | .ean13C r => r.pc.s
  | .isbn13C r => r.pc.s
  | .ismn13C r => r.pc.s
  | .isbn10C r => r.pc.s
  | .ismnC r => r.pc.s
  | .upc5C r => r.s

/-- The normalized string each format stores after resolving one wildcard
to `v`: the uppercased input with the wildcard replaced by the digit
character (UPC-5 first appends its internal check slot and afterwards
truncates to the five printed characters). -/
def fmtNorm (f : Format) (s : List Char) (v : Nat) : List Char :=
  match f with
  | .upc5 => (substStar (upperStr (s ++ ['*'])) (Char.ofNat (48 + v))).take 5
  | _ => substStar (upperStr s) (Char.ofNat (48 + v))

theorem fmt_stable (f : Format) : ∀ v : Nat, v < 10 →
    stableMap (fmtCfg f).fm (Char.ofNat (48 + v)) (Int.ofNat v)
    ∧ stableMap (fmtCfg f).lm (Char.ofNat (48 + v)) (Int.ofNat v)
    ∧ stableMap (fmtCfg f).om (Char.ofNat (48 + v)) (Int.ofNat v) := by
  intro v hv
  cases f
  · exact ⟨stable_upcFirst hv, stable_upcLast hv, stable_upcOther hv⟩
  · exact ⟨stable_upcFirst hv, stable_upcLast hv, stable_upcOther hv⟩
  · exact ⟨stable_upcFirst hv, stable_upcLast hv, stable_upcOther hv⟩
  · exact ⟨stable_upcFirst hv, stable_isbn10Last hv, stable_upcOther hv⟩
  · exact ⟨stable_ismnFirst hv, stable_upcLast hv, stable_ismnOther hv⟩
  · exact ⟨stable_baseMap hv, stable_upcLast hv, stable_baseMap hv⟩

theorem fmt_coprime (f : Format) :
    ∀ w ∈ (fmtCfg f).weights, Int.gcd w (fmtCfg f).magic = 1 := by
  cases f <;> decide

theorem fmt_magic10 (f : Format) : 10 ≤ (fmtCfg f).magic := by
  cases f <;> decide

theorem mkISMN_ok_inv {s : List Char} {r : ISMNCode}
    (h : mkISMN s = .ok r) :
    ∃ pc e13, pcInit ismnCfg s = .ok pc
      ∧ mkISMN13 (ismnAs13str pc.s) = .ok e13 ∧ r = ⟨pc, e13.bits⟩ := by
  unfold mkISMN at h
  cases hpc : pcInit ismnCfg s with
  | error e => rw [hpc] at h; exact absurd h (by simp)
  | ok pc =>
    rw [hpc] at h
    dsimp only at h
    cases h13 : mkISMN13 (ismnAs13str pc.s) with
    | error e => rw [h13] at h; exact absurd h (by simp)
    | ok e13 =>
      rw [h13] at h
      dsimp only at h
      exact ⟨pc, e13, rfl, h13, by simpa using h.symm⟩

theorem mkUPC5_ok_inv {s : List Char} {r : UPC5Code} (h : mkUPC5 s = .ok r) :
    ∃ pc, pcInit upc5Cfg (s ++ ['*']) = .ok pc
      ∧ r.digits = pc.digits ∧ r.s = pc.s.take 5
      ∧ r.checkDigit = pc.checkDigit := by
  unfold mkUPC5 at h
  cases hpc : pcInit upc5Cfg (s ++ ['*']) with
  | error e => rw [hpc] at h; exact absurd h (by simp)
  | ok pc =>
    rw [hpc] at h
    dsimp only at h
    refine ⟨pc, rfl, ?_, ?_, ?_⟩
    all_goals {
      have hr : r = ⟨pc.s.take 5, pc.digits, pc.checkDigit,
          upc5parity pc.checkDigit,
          "1011".toList
            ++ (setbits upc5bitchar (upc5parity pc.checkDigit) (pc.digits.take 5)).take 7
            ++ "01".toList
            ++ ((setbits upc5bitchar (upc5parity pc.checkDigit) (pc.digits.take 5)).drop 7).take 7
            ++ "01".toList
            ++ ((setbits upc5bitchar (upc5parity pc.checkDigit) (pc.digits.take 5)).drop 14).take 7
            ++ "01".toList
            ++ ((setbits upc5bitchar (upc5parity pc.checkDigit) (pc.digits.take 5)).drop 21).take 7
            ++ "01".toList
            ++ ((setbits upc5bitchar (upc5parity pc.checkDigit) (pc.digits.take 5)).drop 28).take 7⟩ := by
        simpa using h.symm
      rw [hr]
    }

/-- The shared core of C3: a successful construction whose parse has
exactly one unresolved slot resolves it to the unique 0..9 solution of the
checksum equation, substitutes it into the normalized string, and
`ProductCode.__init__` re-run on that string reproduces the state. -/
theorem pcInit_one_wild_core {cfg : PCConfig} {input : List Char} {pc : PC}
    {ds : List (Option Int)} {v : Nat}
    (hst : ∀ u : Nat, u < 10 →
        stableMap cfg.fm (Char.ofNat (48 + u)) (Int.ofNat u)
        ∧ stableMap cfg.lm (Char.ofNat (48 + u)) (Int.ofNat u)
        ∧ stableMap cfg.om (Char.ofNat (48 + u)) (Int.ofNat u))
    (hcop : ∀ w ∈ cfg.weights, Int.gcd w cfg.magic = 1)
    (hmagic : 10 ≤ cfg.magic)
    (hpc : pcInit cfg input = .ok pc)
    (hparse : parse cfg.fm cfg.lm cfg.om input = .ok ds)
    (hone : nWild ds = 1) (hv : v < 10)
    (hsol : wsum (setWild ds (Int.ofNat v)) cfg.weights % cfg.magic = 0) :
    (∀ w : Nat, w < 10 →
        wsum (setWild ds (Int.ofNat w)) cfg.weights % cfg.magic = 0 → w = v)
    ∧ pc.digits = setWild ds (Int.ofNat v)
    ∧ pc.s = substStar (upperStr input) (Char.ofNat (48 + v))
    ∧ pcInit cfg pc.s = .ok ⟨pc.s, pc.s, pc.digits, pc.checkDigit⟩ := by
  obtain ⟨ds0, iOpt, hp0, hres0, hnorm, hrc, hlast, -⟩ := pcInit_ok_inv hpc
  rw [hparse] at hp0
  obtain rfl : ds = ds0 := by simpa using hp0
  obtain ⟨hlen, hcases⟩ := resolveChecksum_ok_inv hres0
  have huniq : ∀ w : Nat, w < 10 →
      wsum (setWild ds (Int.ofNat w)) cfg.weights % cfg.magic = 0 → w = v :=
    fun w hw hsw => one_wild_unique hone hlen hcop hmagic hv hw hsol hsw
  rcases hcases with ⟨h0, -, -, -⟩ | ⟨-, j, hfind, hio, hdd⟩ | ⟨-, -, -, hfind⟩
  · omega
  · have hj10 : j < 10 := by
      have := List.mem_of_find?_eq_some hfind
      simpa using this
    have hjsol : wsum (setWild ds (Int.ofNat j)) cfg.weights % cfg.magic = 0 := by
      have := List.find?_some hfind
      simpa using this
    have hjv : j = v := huniq j hj10 hjsol
    subst hjv
    subst hio
    have hrr := pcInit_rerun hst hpc hparse hres0
    exact ⟨huniq, hdd, by rw [hrr.1, substStar_upperStr_eq_map], hrr.2⟩
  · exfalso
    have := List.find?_eq_none.mp hfind v (by simpa using hv)
    apply this
    simpa using hsol

theorem star_not_mem_tSub {ch : Char} (hch : ch ≠ '*') (l : List Char) :
    '*' ∉ l.map (tSub ch) := by
  intro hmem
  obtain ⟨c, -, hc⟩ := List.mem_map.mp hmem
  exact tSub_ne_star hch c hc

theorem ean13Init_rerun {ty : String} {s : List Char} {r : EANCode}
    (h : ean13Init ty s = .ok r)
    (hre : pcInit (ean13Cfg ty) r.pc.s
      = .ok ⟨r.pc.s, r.pc.s, r.pc.digits, r.pc.checkDigit⟩) :
    ∃ q : EANCode, ean13Init ty r.pc.s = .ok q
      ∧ q.pc.digits = r.pc.digits ∧ q.pc.s = r.pc.s := by
  obtain ⟨d0, hpc0, hhead, -, -, -, -⟩ := ean13Init_ok_inv h
  unfold ean13Init
  rw [hre]
  dsimp only
  rw [hhead]
  dsimp only
  exact ⟨_, rfl, rfl, rfl⟩

theorem mkISBN13_rerun {s : List Char} {r : EANCode}
    (h : mkISBN13 s = .ok r)
    (hre : pcInit (ean13Cfg "ISBN13") r.pc.s
      = .ok ⟨r.pc.s, r.pc.s, r.pc.digits, r.pc.checkDigit⟩) :
    (∃ q : EANCode, mkISBN13 r.pc.s = .ok q
      ∧ q.pc.digits = r.pc.digits ∧ q.pc.s = r.pc.s)
    ∨ mkISBN13 r.pc.s
      = .error (.pce (some "ISBN13: must begin with 978 or 979")) := by
  obtain ⟨q, hq, hqd, hqs⟩ := ean13Init_rerun (mkISBN13_ok_ean13 h) hre
  obtain ⟨ds2, iOpt2, hp2, hres2, -, -, -, -⟩ := pcInit_ok_inv hre
  have hlen2 : ds2.length = 13 := by
    obtain ⟨hl, -⟩ := resolveChecksum_ok_inv hres2
    rw [hl]
    rfl
  have hslen := parse_length_le hp2
  rw [hlen2] at hslen
  obtain ⟨a, ha⟩ := get?_some_of_lt (show 0 < r.pc.s.length by omega)
  obtain ⟨b, hb⟩ := get?_some_of_lt (show 1 < r.pc.s.length by omega)
  obtain ⟨c, hc⟩ := get?_some_of_lt (show 2 < r.pc.s.length by omega)
  unfold mkISBN13
  rw [hq]
  dsimp only
  rw [ha, hb, hc]
  dsimp only
  by_cases hpre : (a = '9' ∨ a = '*') ∧ (b = '7' ∨ b = '*')
      ∧ (c = '8' ∨ c = '9' ∨ c = '*')
  · rw [if_pos hpre]
    exact Or.inl ⟨q, rfl, hqd, hqs⟩
  · rw [if_neg hpre]
    exact Or.inr rfl

theorem mkISMN13_rerun {s : List Char} {r : EANCode}
    (h : mkISMN13 s = .ok r)
    (hre : pcInit (ean13Cfg "ISMN13") r.pc.s
      = .ok ⟨r.pc.s, r.pc.s, r.pc.digits, r.pc.checkDigit⟩) :
    (∃ q : EANCode, mkISMN13 r.pc.s = .ok q
      ∧ q.pc.digits = r.pc.digits ∧ q.pc.s = r.pc.s)
    ∨ mkISMN13 r.pc.s
      = .error (.pce (some "ISMN13: must begin with 979")) := by
  obtain ⟨q, hq, hqd, hqs⟩ := ean13Init_rerun (mkISMN13_ok_ean13 h) hre
  obtain ⟨ds2, iOpt2, hp2, hres2, -, -, -, -⟩ := pcInit_ok_inv hre
  have hlen2 : ds2.length = 13 := by
    obtain ⟨hl, -⟩ := resolveChecksum_ok_inv hres2
    rw [hl]
    rfl
  have hslen := parse_length_le hp2
  rw [hlen2] at hslen
  obtain ⟨a, ha⟩ := get?_some_of_lt (show 0 < r.pc.s.length by omega)
  obtain ⟨b, hb⟩ := get?_some_of_lt (show 1 < r.pc.s.length by omega)
  obtain ⟨c, hc⟩ := get?_some_of_lt (show 2 < r.pc.s.length by omega)
  unfold mkISMN13
  rw [hq]
  dsimp only
  rw [ha, hb, hc]
  dsimp only
  by_cases hpre : (a = '9' ∨ a = '*') ∧ (b = '7' ∨ b = '*') ∧ (c = '9' ∨ c = '*')
  · rw [if_pos hpre]
    exact Or.inl ⟨q, rfl, hqd, hqs⟩
  · rw [if_neg hpre]
    exact Or.inr rfl

theorem mkISBN10_rerun {s : List Char} {r : ISBN10Code}
    (h : mkISBN10 s = .ok r)
    (hre : pcInit isbn10Cfg r.pc.s
      = .ok ⟨r.pc.s, r.pc.s, r.pc.digits, r.pc.checkDigit⟩) :
    ∃ q : ISBN10Code, mkISBN10 r.pc.s = .ok q
      ∧ q.pc.digits = r.pc.digits ∧ q.pc.s = r.pc.s := by
  obtain ⟨pc, e13, hpc0, h13, rfl⟩ := mkISBN10_ok_inv h
  unfold mkISBN10
  rw [hre]
  dsimp only
  rw [h13]
  dsimp only
  exact ⟨_, rfl, rfl, rfl⟩

theorem mkISMN_rerun {s : List Char} {r : ISMNCode}
    (h : mkISMN s = .ok r)
    (hre : pcInit ismnCfg r.pc.s
      = .ok ⟨r.pc.s, r.pc.s, r.pc.digits, r.pc.checkDigit⟩) :
    ∃ q : ISMNCode, mkISMN r.pc.s = .ok q
      ∧ q.pc.digits = r.pc.digits ∧ q.pc.s = r.pc.s := by
  obtain ⟨pc, e13, hpc0, h13, rfl⟩ := mkISMN_ok_inv h
  unfold mkISMN
  rw [hre]
  dsimp only
  rw [h13]
  dsimp only
  exact ⟨_, rfl, rfl, rfl⟩

/-- The UPC-5 normalized string is exactly the five input digit characters:
the appended check slot is resolved and then truncated away. -/
theorem mkUPC5_s_eq {s : List Char} {r : UPC5Code} (h : mkUPC5 s = .ok r) :
    r.s = s := by
  obtain ⟨pc, hpc, hdig, hs5, hcd⟩ := mkUPC5_ok_inv h
  obtain ⟨ds, iOpt, hp, hres, hnorm, -, -, -⟩ := pcInit_ok_inv hpc
  cases s with
  | nil =>
    exfalso
    rw [List.nil_append] at hp
    obtain ⟨v0, vs, vl, h0, -, -, -⟩ := parse_ok_struct hp
    have := look_ok_eq h0
    rw [show (upc5Cfg.fm '*') = none from rfl] at this
    exact absurd this (by simp)
  | cons c0 s2 =>
    rw [List.cons_append] at hp
    obtain ⟨v0, vs, vl, h0, hmid, hlst, hds⟩ := parse_ok_struct hp
    rw [List.dropLast_concat] at hmid
    rw [List.getLastD_concat] at hlst
    have hc0 : baseMap c0 = some v0 := look_ok_eq h0
    have hvlw : vl = CVal.wild := by
      have := look_ok_eq hlst
      rw [show (upc5Cfg.lm '*') = some CVal.wild from rfl] at this
      simpa using this.symm
    have hdigs : ∀ c ∈ c0 :: s2, ∃ w, baseMap c = some w := by
      intro c hc
      rcases List.mem_cons.mp hc with rfl | hc
      · exact ⟨v0, hc0⟩
      · exact lookAll_ok_dom hmid c hc
    have hnosep : ∀ u ∈ v0 :: (vs ++ [vl]), u ≠ CVal.sep := by
      intro u hu
      rcases List.mem_cons.mp hu with rfl | hu
      · obtain ⟨n, rfl⟩ := baseMap_some_digit hc0
        simp
      · rcases List.mem_append.mp hu with hu | hu
        · obtain ⟨n, rfl⟩ := lookAll_base_digit hmid u hu
          simp
        · rw [List.mem_singleton.mp hu, hvlw]
          simp
    have hone : nWild ds = 1 := by
      rw [hds, hvlw,
        show (v0 :: (vs ++ [CVal.wild])) = ((v0 :: vs) ++ [CVal.wild]) from rfl,
        List.filterMap_append, nWild_append]
      have hz : nWild ((v0 :: vs).filterMap cvalSlot) = 0 := by
        unfold nWild
        rw [List.countP_eq_zero]
        intro o ho
        obtain ⟨u, hu, hslot⟩ := List.mem_filterMap.mp ho
        have hdig' : ∃ n, u = CVal.digit n := by
          rcases List.mem_cons.mp hu with rfl | hu
          · exact baseMap_some_digit hc0
          · exact lookAll_base_digit hmid u hu
        obtain ⟨n, rfl⟩ := hdig'
        obtain rfl : some n = o := by simpa [cvalSlot] using hslot
        simp
      rw [hz]
      rfl
    obtain ⟨i, hi10, hio, hdd, -, -⟩ :=
      resolve_no_fallthrough hres (by omega) (by decide) upc5_solvable
    subst hio
    have hrr := pcInit_rerun (fmt_stable .upc5) hpc hp hres
    have hmapid : (c0 :: s2).map (tSub (Char.ofNat (48 + i))) = c0 :: s2 := by
      apply map_id_of
      intro a ha
      obtain ⟨w, hw⟩ := hdigs a ha
      exact tSub_of_baseMap hw _
    have hlen5 : (c0 :: s2).length = 5 := by
      obtain ⟨hl, -⟩ := resolveChecksum_ok_inv hres
      have hl6 : ds.length = 6 := by rw [hl]; rfl
      have h2 : ds.length = s2.length + 2 := by
        rw [hds, filterMap_cvalSlot_length hnosep]
        simp [lookAll_ok_length hmid]
      simp only [List.length_cons]
      omega
    rw [hs5, hrr.1, List.map_append, hmapid]
    rw [show (['*'].map (tSub (Char.ofNat (48 + i))))
        = [Char.ofNat (48 + i)] from by simp [tSub_star]]
    rw [show (5 : Nat) = (c0 :: s2).length from hlen5.symm]
    exact List.take_left _ _

theorem exceptMap_ok_inv {α β : Type} {g : α → β} {x : Except PErr α} {r : β}
    (h : x.map g = .ok r) : ∃ a, x = .ok a ∧ r = g a := by
  cases x with
  | error e => exact absurd h (by simp [Except.map])
  | ok a => exact ⟨a, rfl, by simpa [Except.map] using h.symm⟩

/-- C3 (amended): for every format, every input whose parse leaves exactly
one unresolved slot and that constructs successfully resolves the slot to
the unique value in 0..9 satisfying the checksum equation (10 is never
tried, even for mod-11 ISBN-10), substitutes its digit character into the
uppercased normalized string (leaving no wildcard), and re-running the same
format's constructor on the stored normalized string succeeds with the same
digit sequence and normalized string — except that ISBN-13/ISMN-13 may
instead reject the substituted string with their raw-prefix error, since
the wildcard may have stood in the checked prefix. -/
theorem c3_one_wildcard_resolution (f : Format) (s : List Char) (r : PCode)
    (ds : List (Option Int)) (v : Nat)
    (hok : mkFormat f s = .ok r)
    (hparse : fmtParse f s = .ok ds)
    (hone : nWild ds = 1)
    (hv : v < 10)
    (hsol : wsum (setWild ds (Int.ofNat v)) (fmtCfg f).weights % (fmtCfg f).magic
      = 0) :
    (∀ w : Nat, w < 10 →
        wsum (setWild ds (Int.ofNat w)) (fmtCfg f).weights % (fmtCfg f).magic = 0
        → w = v)
    ∧ pcodeDigits r = setWild ds (Int.ofNat v)
    ∧ pcodeS r = fmtNorm f s v
    ∧ '*' ∉ pcodeS r
    ∧ ((∃ q, mkFormat f (pcodeS r) = .ok q ∧ pcodeDigits q = pcodeDigits r
          ∧ pcodeS q = pcodeS r)
      ∨ (f = .isbn13 ∧ mkFormat f (pcodeS r)
          = .error (.pce (some "ISBN13: must begin with 978 or 979")))
      ∨ (f = .ismn13 ∧ mkFormat f (pcodeS r)
          = .error (.pce (some "ISMN13: must begin with 979")))) := by
  cases f with
  | ean13 =>
    obtain ⟨e, he, rfl⟩ := exceptMap_ok_inv hok
    obtain ⟨d0, hpc, -, -, -, -, -⟩ := ean13Init_ok_inv he
    obtain ⟨huniq, hdig, hs, hrerun⟩ := pcInit_one_wild_core (fmt_stable .ean13)
      (fmt_coprime .ean13) (fmt_magic10 .ean13) hpc hparse hone hv hsol
    refine ⟨huniq, hdig, hs, ?_, ?_⟩
    · rw [show pcodeS (.ean13C e) = e.pc.s from rfl, hs, substStar_upperStr_eq_map]
      exact star_not_mem_tSub (digitChar_eval hv).2.1 s
    · obtain ⟨q, hq, hqd, hqs⟩ := ean13Init_rerun he hrerun
      refine Or.inl ⟨.ean13C q, ?_, hqd, hqs⟩
      show (ean13Init "EAN13" e.pc.s).map PCode.ean13C = .ok (.ean13C q)
      rw [hq]
      rfl
  | isbn13 =>
    obtain ⟨e, he, rfl⟩ := exceptMap_ok_inv hok
    obtain ⟨d0, hpc, -, -, -, -, -⟩ := ean13Init_ok_inv (mkISBN13_ok_ean13 he)
    obtain ⟨huniq, hdig, hs, hrerun⟩ := pcInit_one_wild_core (fmt_stable .isbn13)
      (fmt_coprime .isbn13) (fmt_magic10 .isbn13) hpc hparse hone hv hsol
    refine ⟨huniq, hdig, hs, ?_, ?_⟩
    · rw [show pcodeS (.isbn13C e) = e.pc.s from rfl, hs, substStar_upperStr_eq_map]
      exact star_not_mem_tSub (digitChar_eval hv).2.1 s
    · rcases mkISBN13_rerun he hrerun with ⟨q, hq, hqd, hqs⟩ | herr
      · refine Or.inl ⟨.isbn13C q, ?_, hqd, hqs⟩
        show (mkISBN13 e.pc.s).map PCode.isbn13C = .ok (.isbn13C q)
        rw [hq]
        rfl
      · refine Or.inr (Or.inl ⟨rfl, ?_⟩)
        show (mkISBN13 e.pc.s).map PCode.isbn13C = _
        rw [herr]
        rfl
  | ismn13 =>
    obtain ⟨e, he, rfl⟩ := exceptMap_ok_inv hok
    obtain ⟨d0, hpc, -, -, -, -, -⟩ := ean13Init_ok_inv (mkISMN13_ok_ean13 he)
    obtain ⟨huniq, hdig, hs, hrerun⟩ := pcInit_one_wild_core (fmt_stable .ismn13)
      (fmt_coprime .ismn13) (fmt_magic10 .ismn13) hpc hparse hone hv hsol
    refine ⟨huniq, hdig, hs, ?_, ?_⟩
    · rw [show pcodeS (.ismn13C e) = e.pc.s from rfl, hs, substStar_upperStr_eq_map]
      exact star_not_mem_tSub (digitChar_eval hv).2.1 s
    · rcases mkISMN13_rerun he hrerun with ⟨q, hq, hqd, hqs⟩ | herr
      · refine Or.inl ⟨.ismn13C q, ?_, hqd, hqs⟩
        show (mkISMN13 e.pc.s).map PCode.ismn13C = .ok (.ismn13C q)
        rw [hq]
        rfl
      · refine Or.inr (Or.inr ⟨rfl, ?_⟩)
        show (mkISMN13 e.pc.s).map PCode.ismn13C = _
        rw [herr]
        rfl
  | isbn10 =>
    obtain ⟨e, he, rfl⟩ := exceptMap_ok_inv hok
    obtain ⟨pc, e13, hpc, h13, rfl⟩ := mkISBN10_ok_inv he
    obtain ⟨huniq, hdig, hs, hrerun⟩ := pcInit_one_wild_core (fmt_stable .isbn10)
      (fmt_coprime .isbn10) (fmt_magic10 .isbn10) hpc hparse hone hv hsol
    refine ⟨huniq, hdig, hs, ?_, ?_⟩
    · rw [show pcodeS (.isbn10C ⟨pc, e13.bits⟩) = pc.s from rfl, hs,
        substStar_upperStr_eq_map]
      exact star_not_mem_tSub (digitChar_eval hv).2.1 s
    · obtain ⟨q, hq, hqd, hqs⟩ := mkISBN10_rerun he hrerun
      have hq' : mkISBN10 pc.s = .ok q := hq
      refine Or.inl ⟨.isbn10C q, ?_, hqd, hqs⟩
      show (mkISBN10 pc.s).map PCode.isbn10C = .ok (.isbn10C q)
      rw [hq']
      rfl
  | ismn =>
    obtain ⟨e, he, rfl⟩ := exceptMap_ok_inv hok
    obtain ⟨pc, e13, hpc, h13, rfl⟩ := mkISMN_ok_inv he
    obtain ⟨huniq, hdig, hs, hrerun⟩ := pcInit_one_wild_core (fmt_stable .ismn)
      (fmt_coprime .ismn) (fmt_magic10 .ismn) hpc hparse hone hv hsol
    refine ⟨huniq, hdig, hs, ?_, ?_⟩
    · rw [show pcodeS (.ismnC ⟨pc, e13.bits⟩) = pc.s from rfl, hs,
        substStar_upperStr_eq_map]
      exact star_not_mem_tSub (digitChar_eval hv).2.1 s
    · obtain ⟨q, hq, hqd, hqs⟩ := mkISMN_rerun he hrerun
      have hq' : mkISMN pc.s = .ok q := hq
      refine Or.inl ⟨.ismnC q, ?_, hqd, hqs⟩
      show (mkISMN pc.s).map PCode.ismnC = .ok (.ismnC q)
      rw [hq']
      rfl
  | upc5 =>
    obtain ⟨e, he, rfl⟩ := exceptMap_ok_inv hok
    obtain ⟨pc, hpc, hdigeq, hs5, -⟩ := mkUPC5_ok_inv he
    have hse : e.s = s := mkUPC5_s_eq he
    have hparse' : parse upc5Cfg.fm upc5Cfg.lm upc5Cfg.om (s ++ ['*'])
        = .ok ds := hparse
    obtain ⟨huniq, hdig, hs, -⟩ := pcInit_one_wild_core (fmt_stable .upc5)
      (fmt_coprime .upc5) (fmt_magic10 .upc5) hpc hparse' hone hv hsol
    refine ⟨huniq, ?_, ?_, ?_, ?_⟩
    · rw [show pcodeDigits (.upc5C e) = e.digits from rfl, hdigeq]
      exact hdig
    · rw [show pcodeS (.upc5C e) = e.s from rfl, hs5, hs]
      rfl
    · rw [show pcodeS (.upc5C e) = e.s from rfl, hs5, hs,
        substStar_upperStr_eq_map]
      intro hmem
      exact star_not_mem_tSub (digitChar_eval hv).2.1 _ (List.mem_of_mem_take hmem)
    · refine Or.inl ⟨.upc5C e, ?_, rfl, rfl⟩
      show (mkUPC5 e.s).map PCode.upc5C = .ok (.upc5C e)
      rw [hse, he]
      rfl

/-- C3 witness: `EAN13("400638133393*")` resolves the wildcard to the
unique candidate 1, stores fully substituted digits, and its normalized
string has no wildcard left. -/
theorem c3_one_wildcard_resolution_witness :
    ∃ r ds, mkFormat .ean13 "400638133393*".toList = .ok r
      ∧ fmtParse .ean13 "400638133393*".toList = .ok ds
      ∧ nWild ds = 1
      ∧ wsum (setWild ds (Int.ofNat 1)) (fmtCfg .ean13).weights
          % (fmtCfg .ean13).magic = 0
      ∧ pcodeDigits r = setWild ds (Int.ofNat 1)
      ∧ '*' ∉ pcodeS r := by
  cases hk : mkFormat .ean13 "400638133393*".toList with
  | error e0 =>
    have hh : exceptOk (mkFormat .ean13 "400638133393*".toList) = true := by rfl
    rw [hk] at hh
    exact absurd hh (by simp [exceptOk])
  | ok r =>
    cases hp : fmtParse .ean13 "400638133393*".toList with
    | error e0 =>
      have hh : exceptOk (fmtParse .ean13 "400638133393*".toList) = true := by rfl
      rw [hp] at hh
      exact absurd hh (by simp [exceptOk])
    | ok ds =>
      have hds : ds = [some 4, some 0, some 0, some 6, some 3, some 8, some 1,
          some 3, some 3, some 3, some 9, some 3, none] := by
        have hp2 : fmtParse .ean13 "400638133393*".toList
            = .ok [some 4, some 0, some 0, some 6, some 3, some 8, some 1,
              some 3, some 3, some 3, some 9, some 3, none] := by rfl
        rw [hp] at hp2
        simpa using hp2
      subst hds
      have hone : nWild [some (4:Int), some 0, some 0, some 6, some 3, some 8,
          some 1, some 3, some 3, some 3, some 9, some 3, none] = 1 := by decide
      have hsol : wsum (setWild [some (4:Int), some 0, some 0, some 6, some 3,
          some 8, some 1, some 3, some 3, some 3, some 9, some 3, none]
          (Int.ofNat 1)) (fmtCfg .ean13).weights % (fmtCfg .ean13).magic = 0 := by
        decide
      have happ := c3_one_wildcard_resolution .ean13 "400638133393*".toList r _ 1
        hk hp hone (by decide) hsol
      exact ⟨r, _, rfl, rfl, hone, hsol, happ.2.1, happ.2.2.2.1⟩
